import Mathlib

/-!
Verification of the tobmap routing and snapping pipeline.

This file gives a shallow embedding, in Lean, of the core data model and
operations of the tobmap repository:

- the graph blob data model (crates/schema, as described by the external
  interface section of the design document);
- the route service (crates/server/src/route.rs): edge cost, interaction
  cost, adjacency, Dijkstra over the edge dual graph, k path search and the
  route RPC handler;
- the cost encoding of the graph builder (crates/graphbuild/src/lib.rs);
- the edge deduplication of the graph builder;
- the node ordering phase of the graph builder, parameterized by the
  iteration order of the intermediate hash maps;
- the snap index builder (crates/snapbuild/src/lib.rs);
- the snap service (crates/server/src/snap.rs).

Machine integers are modeled as Nat with explicit reductions modulo
two to the sixteenth or two to the sixty fourth where the Rust code can
overflow or wrap.  Fallible or panicking code paths are modeled with
explicit result inductives.  Loops without a structural measure carry a
fuel argument; fuel exhaustion is a distinct result constructor which the
real program never produces.
-/

namespace TobMap

/-- Fixed width edge record of the graph blob: two node indices and the
packed cost and flag word, a u16 in the Rust schema. -/
structure Edge where
  point_1_node_idx : Nat
  point_2_node_idx : Nat
  costs_and_flags : Nat
  deriving Repr, DecidableEq

/-- Interaction record of a graph node: raw u8 codes for the incoming and
outgoing traffic control observed at the node. -/
structure Interaction where
  incoming : Nat
  outgoing : Nat
  deriving Repr, DecidableEq

/-- Graph node record: incident edge indices and the parallel interaction
list. A missing flatbuffer vector is modeled as the empty list, which the
route service treats identically. -/
structure GraphNode where
  edges : List Nat
  interactions : List Interaction
  deriving Repr, DecidableEq

/-- Root of the graph blob: the edge vector and the node vector. -/
structure GraphBlob where
  edges : List Edge
  nodes : List GraphNode
  deriving Repr, DecidableEq

/-- Largest u32 value, the saturation bound of cost addition in route.rs. -/
def u32MAX : Nat := 4294967295

/-- Saturating u32 addition as used by saturating_add in route.rs. -/
def satAdd32 (a b : Nat) : Nat := min (a + b) u32MAX

/-- Bit zero of costs_and_flags, read as the backwards permission flag. -/
def backwardsAllowed (ed : Edge) : Bool := ed.costs_and_flags % 2 == 1

/-- Edge cost used by the route service (route.rs, calculate_edge_cost):
shift costs_and_flags right by three; u32MAX for an out of range index. -/
def calculate_edge_cost (g : GraphBlob) (edge_id : Nat) : Nat :=
  match g.edges[edge_id]? with
  | some e => e.costs_and_flags >>> 3
  | none => u32MAX

/-- Index of the last occurrence of x in l, mirroring the forward scan in
calculate_interaction_cost that keeps overwriting the found position. -/
def lastIdxOf : List Nat → Nat → Option Nat
  | [], _ => none
  | a :: as, x =>
    match lastIdxOf as x with
    | some i => some (i + 1)
    | none => if a = x then some 0 else none

/-- Cost table of the match on the outgoing road interaction in route.rs.
The numbering None 0, Yield 1, StopSign 2, TrafficLight 3 is the schema
enum as documented in the data model section of the design document (the
flatbuffer schema crate is not part of the analyzed sources); any other
raw value falls to the catch all arm returning zero. -/
def interactionCostOfOutgoing (raw : Nat) : Nat :=
  if raw = 0 then 2
  else if raw = 1 then 4
  else if raw = 2 then 8
  else if raw = 3 then 32
  else 0

/-- Interaction cost at a shared node (route.rs, calculate_interaction_cost).
Every missing data case, an out of range node index, an incoming or
outgoing edge absent from the incident list, or a too short interaction
vector, falls through to the default cost two. -/
def calculate_interaction_cost (g : GraphBlob) (node_idx incoming_edge outgoing_edge : Nat) :
    Nat :=
  match g.nodes[node_idx]? with
  | none => 2
  | some node =>
    match lastIdxOf node.edges incoming_edge, lastIdxOf node.edges outgoing_edge with
    | some in_pos, some _ =>
      match node.interactions[in_pos]? with
      | some inter => interactionCostOfOutgoing inter.outgoing
      | none => 2
    | _, _ => 2

/-- Adjacent edges at a node (route.rs, get_adjacent_edges): every incident
edge of the node except the current edge itself; empty for an out of range
node index. -/
def get_adjacent_edges (g : GraphBlob) (edge_id node_idx : Nat) : List Nat :=
  match g.nodes[node_idx]? with
  | none => []
  | some node => node.edges.filter (fun e => e != edge_id)

/-- Association list lookup, standing in for HashMap get. -/
def alookup {κ α : Type} [DecidableEq κ] : List (κ × α) → κ → Option α
  | [], _ => none
  | (k0, v) :: rest, k => if k0 = k then some v else alookup rest k

/-- Dijkstra state of find_shortest_path: the distances map, the
predecessor map from an edge to its predecessor edge and the shared node,
and the priority queue.  Map insertion is modeled by consing, which shadows
older entries for lookup exactly like a HashMap overwrite. -/
structure SPState where
  distances : List (Nat × Nat)
  prev_info : List (Nat × Nat × Nat)
  pq : List (Nat × Nat)
  deriving Repr, DecidableEq

/-- Priority queue push.  The Rust BinaryHeap holds pairs of Reverse cost
and edge id and pops the maximum, that is the minimum cost and, among equal
costs, the largest edge id.  The model keeps the queue sorted in that pop
order and pops from the head, which realizes the same pop sequence on the
same multiset of entries. -/
def pqPush : List (Nat × Nat) → Nat → Nat → List (Nat × Nat)
  | [], c, e => [(c, e)]
  | (c0, e0) :: rest, c, e =>
    if c < c0 ∨ (c = c0 ∧ e0 < e) then (c, e) :: (c0, e0) :: rest
    else (c0, e0) :: pqPush rest c e

/-- Relaxation of one successor edge inside the Dijkstra loop of
find_shortest_path: skip avoided edges other than the target, then compare
the saturating cost sum against the recorded distance and on improvement
record distance, predecessor and queue entry. -/
def relaxEdge (g : GraphBlob) (avoid : List Nat) (end_e cost current node_idx : Nat)
    (st : SPState) (next_edge : Nat) : SPState :=
  if next_edge ∈ avoid ∧ next_edge ≠ end_e then st
  else
    let edge_cost := calculate_edge_cost g next_edge
    let interaction_cost := calculate_interaction_cost g node_idx current next_edge
    let cost_sum := satAdd32 edge_cost interaction_cost
    let next_cost := satAdd32 cost cost_sum
    let better : Bool :=
      match alookup st.distances next_edge with
      | some existing => decide (next_cost < existing)
      | none => true
    if better then
      { distances := (next_edge, next_cost) :: st.distances
        prev_info := (next_edge, current, node_idx) :: st.prev_info
        pq := pqPush st.pq next_cost next_edge }
    else st

/-- Expansion of all successors reachable through one endpoint of the
current edge. -/
def expandNode (g : GraphBlob) (avoid : List Nat) (end_e cost current node_idx : Nat)
    (st : SPState) : SPState :=
  (get_adjacent_edges g current node_idx).foldl
    (relaxEdge g avoid end_e cost current node_idx) st

/-- Backwards walk of reconstruct_path in route.rs, returned in forward
order.  A missing predecessor entry yields the empty pair exactly as the
Rust code returns two empty vectors; a cyclic predecessor map, on which the
Rust loop would not terminate, exhausts the fuel and yields none. -/
def walkBack (prev : List (Nat × Nat × Nat)) (start_e : Nat) :
    Nat → Nat → Option (List Nat × List Nat)
  | 0, _ => none
  | fuel + 1, current =>
    if current = start_e then some ([start_e], [])
    else
      match alookup prev current with
      | none => some ([], [])
      | some (pe, n) =>
        match walkBack prev start_e fuel pe with
        | none => none
        | some (es, ns) =>
          if es.isEmpty then some ([], []) else some (es ++ [current], ns ++ [n])

/-- Result of one shortest path search: a found path with its connecting
nodes, the no path error of the Rust code, a panic from an out of range
flatbuffer vector access, or fuel exhaustion (never produced by the real
program). -/
inductive SPResult where
  | found : List Nat → List Nat → SPResult
  | noPath : SPResult
  | panicked : SPResult
  | fuelOut : SPResult
  deriving Repr, DecidableEq

/-- Main Dijkstra loop of find_shortest_path in route.rs. Pops the queue,
returns the reconstruction on reaching the target edge, skips stale queue
entries, otherwise reads the current edge record (a panicking access when
the index is out of range) and expands successors through both endpoints. -/
def spLoop (g : GraphBlob) (avoid : List Nat) (start_e end_e : Nat) :
    Nat → SPState → SPResult
  | 0, _ => .fuelOut
  | fuel + 1, st =>
    match st.pq with
    | [] => .noPath
    | (cost, current) :: rest =>
      if current = end_e then
        match walkBack st.prev_info start_e (st.prev_info.length + 2) end_e with
        | some (es, ns) => .found es ns
        | none => .fuelOut
      else
        let stale : Bool :=
          match alookup st.distances current with
          | some best => decide (best < cost)
          | none => false
        if stale then spLoop g avoid start_e end_e fuel { st with pq := rest }
        else
          match g.edges[current]? with
          | none => .panicked
          | some ed =>
            let st1 := expandNode g avoid end_e cost current ed.point_1_node_idx
              { st with pq := rest }
            let st2 := expandNode g avoid end_e cost current ed.point_2_node_idx st1
            spLoop g avoid start_e end_e fuel st2

/-- One shortest path attempt (route.rs, find_shortest_path), seeded with
distance zero at the start edge. -/
def find_shortest_path (g : GraphBlob) (start_e end_e : Nat) (avoid : List Nat)
    (fuel : Nat) : SPResult :=
  spLoop g avoid start_e end_e fuel
    { distances := [(start_e, 0)], prev_info := [], pq := [(0, start_e)] }

/-- Result of find_paths: the collected paths, the error of a failed first
attempt, a propagated panic, or fuel exhaustion. -/
inductive PathsResult where
  | ok : List (List Nat × List Nat) → PathsResult
  | err : PathsResult
  | panicked : PathsResult
  | fuelOut : PathsResult
  deriving Repr, DecidableEq

/-- The loop over the second to the k th attempt in find_paths: an empty
path or a failed attempt ends the loop keeping the paths found so far; a
found path is appended and its edges join the avoid set. -/
def findMorePaths (g : GraphBlob) (start_e end_e fuel : Nat) :
    Nat → List Nat → List (List Nat × List Nat) → PathsResult
  | 0, _, acc => .ok acc
  | k + 1, used, acc =>
    match find_shortest_path g start_e end_e used fuel with
    | .found es ns =>
      if es.isEmpty then .ok acc
      else findMorePaths g start_e end_e fuel k (es ++ used) (acc ++ [(es, ns)])
    | .noPath => .ok acc
    | .panicked => .panicked
    | .fuelOut => .fuelOut

/-- Path collection of route.rs, find_paths: the first attempt error is
returned to the caller, later attempts only truncate the list. -/
def find_paths (g : GraphBlob) (start_e end_e : Nat) (max_paths fuel : Nat) : PathsResult :=
  match find_shortest_path g start_e end_e [] fuel with
  | .found es ns => findMorePaths g start_e end_e fuel (max_paths - 1) es [(es, ns)]
  | .noPath => .err
  | .panicked => .panicked
  | .fuelOut => .fuelOut

/-- Route request message: start edge index, end edge index and the
optional requested number of paths, per the RPC contract (the proto file
is not part of the analyzed sources; the field set follows the external
interface section of the design document). -/
structure RouteRequest where
  start_edge_idx : Nat
  end_edge_idx : Nat
  num_paths : Option Nat
  deriving Repr, DecidableEq

/-- Outcome of the route RPC handler, naming the tonic status kinds the
handler can produce plus the invalid argument kind the specification
expects, a panic, and fuel exhaustion. -/
inductive RouteStatus where
  | ok : List (List Nat × List Nat) → RouteStatus
  | internalErr : RouteStatus
  | unavailableErr : RouteStatus
  | invalidArgumentErr : RouteStatus
  | panicked : RouteStatus
  | fuelOut : RouteStatus
  deriving Repr, DecidableEq

/-- The route RPC handler of route.rs: unavailable without graph data,
otherwise find_paths with the hard coded path count three; any find_paths
error surfaces as an internal status.  The num_paths request field is
never read. -/
def route (g : Option GraphBlob) (req : RouteRequest) (fuel : Nat) : RouteStatus :=
  match g with
  | none => .unavailableErr
  | some graph =>
    match find_paths graph req.start_edge_idx req.end_edge_idx 3 fuel with
    | .ok paths => .ok paths
    | .err => .internalErr
    | .panicked => .panicked
    | .fuelOut => .fuelOut

/-- Capped drive cost of the graph builder (graphbuild lib.rs, edge
emission): when car travel is permitted the float travel time is clamped
with max one then min sixteen thousand three hundred eighty four and cast
to u16; otherwise the sentinel sixteen thousand three hundred eighty four
is used.  The nonnegative float clamp and cast agree with the Nat clamp. -/
def drive_cost_of (car_allowed : Bool) (time_seconds : Nat) : Nat :=
  if car_allowed then min (max time_seconds 1) 16384 else 16384

/-- Packing of costs_and_flags by the graph builder (graphbuild lib.rs):
the drive cost is shifted LEFT BY TWO on a u16, wrapping at two to the
sixteenth, and bit zero carries the backwards permission. -/
def encode_costs_and_flags (drive_cost : Nat) (backwards : Bool) : Nat :=
  ((drive_cost <<< 2) % 65536) ||| (if backwards then 1 else 0)

/-- Graph with a single one way edge between nodes zero and one, with a
drive cost of one second (costs_and_flags four). -/
def oneEdgeGraph : GraphBlob :=
  { edges := [⟨0, 1, 4⟩], nodes := [⟨[0], [⟨0, 0⟩]⟩, ⟨[], []⟩] }

/-- Graph with two connected components: edge zero joins nodes zero and
one, edge one joins nodes two and three, and no node is shared. -/
def twoComponentGraph : GraphBlob :=
  { edges := [⟨0, 1, 4⟩, ⟨2, 3, 4⟩],
    nodes := [⟨[0], [⟨0, 0⟩]⟩, ⟨[], []⟩, ⟨[1], [⟨0, 0⟩]⟩, ⟨[], []⟩] }

/-- Graph in which one way edge zero runs from node zero to node one and
edge one runs from node zero to node two; both share node zero, which is
endpoint one of both. -/
def forkGraph : GraphBlob :=
  { edges := [⟨0, 1, 4⟩, ⟨0, 2, 4⟩],
    nodes := [⟨[0, 1], [⟨0, 0⟩, ⟨0, 0⟩]⟩, ⟨[], []⟩, ⟨[], []⟩] }

/-- Edge whose car travel time clamps to one second, as the builder packs
it for a short car permitted road with backwards travel allowed. -/
def oneSecondGraph : GraphBlob :=
  { edges := [⟨0, 1, encode_costs_and_flags (drive_cost_of true 1) true⟩],
    nodes := [⟨[0], [⟨0, 0⟩]⟩, ⟨[0], [⟨0, 0⟩]⟩] }

/-- C1.  The builder packs the clamped drive cost with a shift left by TWO
(graphbuild lib.rs line 497) while the route service reads the cost with a
shift right by THREE (route.rs line 71), so the cost the route service
uses is half the stored seconds value: for a car permitted edge whose
clamped travel time is one second, bit zero still equals the backwards
flag, but the decoded cost is zero, outside the claimed interval from one
to sixteen thousand three hundred eighty four.  This refutes the claim
that the seconds value occupies bits three to fifteen and that the decoded
cost lies in that interval. -/
theorem C1_cost_shift_mismatch :
    encode_costs_and_flags (drive_cost_of true 1) true = 5 ∧
    backwardsAllowed ⟨0, 1, encode_costs_and_flags (drive_cost_of true 1) true⟩ = true ∧
    calculate_edge_cost oneSecondGraph 0 = 0 ∧
    ¬ (1 ≤ calculate_edge_cost oneSecondGraph 0) := by decide

/-- C2 counterexample.  On a graph with two disconnected components the
first Dijkstra attempt exhausts without reaching the target, and the route
RPC returns an INTERNAL error, not a successful response with an empty
path list as the claim states. -/
theorem C2_counterexample_internal_error :
    route (some twoComponentGraph) ⟨0, 1, none⟩ 10 = .internalErr ∧
    RouteStatus.internalErr ≠ RouteStatus.ok [] := by decide

/-- C2 amended.  When the first shortest path attempt ends with the no
path error, find_paths propagates the error and the route handler maps it
to an internal status; the response is never a successful empty list. -/
theorem C2_no_path_first_attempt_is_internal_error (g : GraphBlob) (req : RouteRequest)
    (fuel : Nat)
    (h : find_shortest_path g req.start_edge_idx req.end_edge_idx [] fuel = .noPath) :
    route (some g) req fuel = .internalErr := by
  simp only [route, find_paths, h]

/-- C2 witness: the two component graph realizes the hypothesis. -/
theorem C2_no_path_witness :
    find_shortest_path twoComponentGraph 0 1 [] 10 = .noPath ∧
    route (some twoComponentGraph) ⟨0, 1, none⟩ 10 = .internalErr :=
  ⟨by decide,
    C2_no_path_first_attempt_is_internal_error twoComponentGraph ⟨0, 1, none⟩ 10 (by decide)⟩

/-- Paths collected by the k paths loop grow by at most one per round. -/
lemma findMorePaths_length_le (g : GraphBlob) (start_e end_e fuel : Nat) :
    ∀ k used acc out, findMorePaths g start_e end_e fuel k used acc = .ok out →
      out.length ≤ acc.length + k := by
  intro k
  induction k with
  | zero =>
    intro used acc out h
    simp only [findMorePaths] at h
    cases h
    simp
  | succ k ih =>
    intro used acc out h
    simp only [findMorePaths] at h
    cases hsp : find_shortest_path g start_e end_e used fuel <;> rw [hsp] at h
    case found es ns =>
      by_cases he : es.isEmpty
      · simp only [he, if_true] at h
        cases h
        omega
      · simp only [he, if_false] at h
        have := ih (es ++ used) (acc ++ [(es, ns)]) out h
        simp at this
        omega
    case noPath =>
      cases h
      omega
    case panicked => cases h
    case fuelOut => cases h

/-- C3 counterexample.  The request asks for a single path but the route
RPC returns three (the same trivial one edge path three times over),
because the handler hard codes the path count to three and never reads the
num_paths field of the request. -/
theorem C3_counterexample_three_paths_for_one :
    route (some oneEdgeGraph) ⟨0, 0, some 1⟩ 10 =
      .ok [([0], []), ([0], []), ([0], [])] ∧ ¬ (3 ≤ 1) := by decide

/-- C3 amended.  The route handler ignores the num_paths field of the
request entirely (route.rs line 297 hard codes the count to three): the
response is invariant under changing num_paths, and a successful response
carries at most three paths. -/
theorem C3_num_paths_ignored_and_at_most_three (g : Option GraphBlob)
    (s e fuel : Nat) (k1 k2 : Option Nat) :
    route g ⟨s, e, k1⟩ fuel = route g ⟨s, e, k2⟩ fuel ∧
    (∀ paths, route g ⟨s, e, k1⟩ fuel = .ok paths → paths.length ≤ 3) := by
  constructor
  · rfl
  · intro paths h
    cases g with
    | none => simp [route] at h
    | some graph =>
      simp only [route] at h
      cases hfp : find_paths graph s e 3 fuel <;> simp only [hfp] at h
      case err => exact RouteStatus.noConfusion h
      case panicked => exact RouteStatus.noConfusion h
      case fuelOut => exact RouteStatus.noConfusion h
      case ok out =>
        injection h with h
        subst h
        simp only [find_paths] at hfp
        cases hsp : find_shortest_path graph s e [] fuel <;> simp only [hsp] at hfp
        case found es ns =>
          have := findMorePaths_length_le graph s e fuel (3 - 1) es [(es, ns)] out hfp
          simpa using this
        case noPath => cases hfp
        case panicked => cases hfp
        case fuelOut => cases hfp

/-- C3 witness: the amended bound applied at the one edge graph. -/
theorem C3_at_most_three_witness :
    ([([0], []), ([0], []), ([0], [])] : List (List Nat × List Nat)).length ≤ 3 :=
  (C3_num_paths_ignored_and_at_most_three (some oneEdgeGraph) 0 0 10 (some 1)
    (some 2)).2 [([0], []), ([0], []), ([0], [])] (by decide)

/-- C9.  The route handler performs no bounds check on the request edge
indices: for a graph with a single edge (index zero only), a request for a
route from edge five to edge five returns a NORMAL successful response
containing three copies of a path through the nonexistent edge five, not
the invalid argument error the claim requires (and a request with distinct
out of range indices panics inside the flatbuffer vector access rather
than producing a status). -/
theorem C9_out_of_range_not_rejected :
    oneEdgeGraph.edges.length = 1 ∧
    route (some oneEdgeGraph) ⟨5, 5, none⟩ 10 =
      .ok [([5], []), ([5], []), ([5], [])] ∧
    route (some oneEdgeGraph) ⟨5, 5, none⟩ 10 ≠ .invalidArgumentErr := by decide

/-- The raw interaction match only ever yields one of five costs. -/
lemma interactionCostOfOutgoing_mem (raw : Nat) :
    interactionCostOfOutgoing raw = 0 ∨ interactionCostOfOutgoing raw = 2 ∨
    interactionCostOfOutgoing raw = 4 ∨ interactionCostOfOutgoing raw = 8 ∨
    interactionCostOfOutgoing raw = 32 := by
  unfold interactionCostOfOutgoing
  split_ifs <;> simp

/-- An element absent from the list has no last occurrence index. -/
lemma lastIdxOf_eq_none_of_not_mem (l : List Nat) (x : Nat) (h : x ∉ l) :
    lastIdxOf l x = none := by
  induction l with
  | nil => rfl
  | cons a as ih =>
    simp only [List.mem_cons, not_or] at h
    simp only [lastIdxOf, ih h.2]
    simp [Ne.symm h.1]

/-- C10.  calculate_interaction_cost is a total function whose value is
always one of zero, two, four, eight or thirty two, and it returns the
default cost two whenever the node index is out of range, the incoming or
outgoing edge is not in the incident list of the node, or the interaction
list is too short for the found slot; inconsistent adjacency data can
therefore never abort a route query. -/
theorem C10_interaction_cost_total_and_defaulting (g : GraphBlob) (n ie oe : Nat) :
    (calculate_interaction_cost g n ie oe = 0 ∨ calculate_interaction_cost g n ie oe = 2 ∨
     calculate_interaction_cost g n ie oe = 4 ∨ calculate_interaction_cost g n ie oe = 8 ∨
     calculate_interaction_cost g n ie oe = 32) ∧
    (g.nodes.length ≤ n → calculate_interaction_cost g n ie oe = 2) ∧
    (∀ node, g.nodes[n]? = some node →
      (ie ∉ node.edges ∨ oe ∉ node.edges ∨
        (∀ i, lastIdxOf node.edges ie = some i → node.interactions.length ≤ i)) →
      calculate_interaction_cost g n ie oe = 2) := by
  refine ⟨?_, ?_, ?_⟩
  · unfold calculate_interaction_cost
    split
    · simp
    · split
      · split
        · exact interactionCostOfOutgoing_mem _
        · simp
      · simp
  · intro hlen
    unfold calculate_interaction_cost
    rw [List.getElem?_eq_none hlen]
  · intro node hnode hbad
    simp only [calculate_interaction_cost, hnode]
    rcases h1 : lastIdxOf node.edges ie with _ | in_pos
    · rfl
    · rcases h2 : lastIdxOf node.edges oe with _ | j
      · rfl
      · rcases hbad with hie | hoe | hshort
        · rw [lastIdxOf_eq_none_of_not_mem node.edges ie hie] at h1
          cases h1
        · rw [lastIdxOf_eq_none_of_not_mem node.edges oe hoe] at h2
          cases h2
        · simp only [List.getElem?_eq_none (hshort in_pos h1)]

/-- C10 witness: the defaulting branch applied at an out of range node. -/
theorem C10_out_of_range_witness :
    calculate_interaction_cost oneEdgeGraph 7 0 0 = 2 :=
  (C10_interaction_cost_total_and_defaulting oneEdgeGraph 7 0 0).2.1 (by decide)

/-- One way segment instance between two intersection indices together
with its oneway tag, as handled by the edge distillation loop of the graph
builder (graphbuild lib.rs, around lines 408 to 441). -/
structure SegmentEdge where
  start_idx : Nat
  end_idx : Nat
  oneway : Bool
  deriving Repr, DecidableEq

/-- Canonical unordered key of a segment: smaller index first. -/
def segKey (s : SegmentEdge) : Nat × Nat :=
  (min s.start_idx s.end_idx, max s.start_idx s.end_idx)

/-- Whether the segment runs in the canonical direction. -/
def segCanonical (s : SegmentEdge) : Bool := decide (s.start_idx < s.end_idx)

/-- Per segment canonical forward permission: true when canonical, and
otherwise the negation of the oneway tag. -/
def segAllowsFwd (s : SegmentEdge) : Bool := segCanonical s || !s.oneway

/-- Per segment canonical backward permission: true when running against
the canonical direction, and otherwise the negation of the oneway tag. -/
def segAllowsBwd (s : SegmentEdge) : Bool := !segCanonical s || !s.oneway

/-- Insertion of one segment into the deduplication map: the or_insert
entry call followed by the two in place or assignments of the builder. -/
def dedupInsert : List ((Nat × Nat) × (Bool × Bool)) → SegmentEdge →
    List ((Nat × Nat) × (Bool × Bool))
  | [], s => [(segKey s, (segAllowsFwd s, segAllowsBwd s))]
  | (k, (f, b)) :: rest, s =>
    if k = segKey s then (k, (f || segAllowsFwd s, b || segAllowsBwd s)) :: rest
    else (k, (f, b)) :: dedupInsert rest s

/-- The edge deduplication fold of the builder: segments whose two
endpoints map to the same intersection index are skipped, every other
segment is merged into the map under its canonical key. -/
def dedupEdges (segs : List SegmentEdge) : List ((Nat × Nat) × (Bool × Bool)) :=
  segs.foldl (fun m s => if s.start_idx = s.end_idx then m else dedupInsert m s) []

/-- The nondegenerate segments whose canonical key is k. -/
def segsAt (segs : List SegmentEdge) (k : Nat × Nat) : List SegmentEdge :=
  segs.filter (fun s => decide (s.start_idx ≠ s.end_idx) && (segKey s == k))

/-- Merge of a base map value with the contribution of a segment list. -/
def combineFlags (base : Option (Bool × Bool)) (l : List SegmentEdge) :
    Option (Bool × Bool) :=
  match base, l with
  | none, [] => none
  | none, l => some (l.any segAllowsFwd, l.any segAllowsBwd)
  | some (f, b), l => some (f || l.any segAllowsFwd, b || l.any segAllowsBwd)

lemma alookup_cons {κ α : Type} [DecidableEq κ] (k0 : κ) (v : α) (rest : List (κ × α))
    (k : κ) :
    alookup ((k0, v) :: rest) k = if k0 = k then some v else alookup rest k := rfl

lemma combineFlags_nil (base : Option (Bool × Bool)) : combineFlags base [] = base := by
  rcases base with _ | ⟨f, b⟩ <;> simp [combineFlags]

lemma combineFlags_none_cons (s : SegmentEdge) (l : List SegmentEdge) :
    combineFlags none (s :: l) = combineFlags (some (segAllowsFwd s, segAllowsBwd s)) l := by
  cases l <;> simp [combineFlags]

lemma combineFlags_some_cons (f b : Bool) (s : SegmentEdge) (l : List SegmentEdge) :
    combineFlags (some (f, b)) (s :: l) =
      combineFlags (some (f || segAllowsFwd s, b || segAllowsBwd s)) l := by
  cases l <;> simp [combineFlags, Bool.or_assoc]

lemma alookup_dedupInsert (m : List ((Nat × Nat) × (Bool × Bool))) (s : SegmentEdge)
    (k : Nat × Nat) :
    alookup (dedupInsert m s) k =
      if k = segKey s then
        some (match alookup m k with
          | some (f, b) => (f || segAllowsFwd s, b || segAllowsBwd s)
          | none => (segAllowsFwd s, segAllowsBwd s))
      else alookup m k := by
  induction m with
  | nil =>
    by_cases h : k = segKey s
    · subst h
      simp [dedupInsert, alookup]
    · simp only [dedupInsert, alookup]
      rw [if_neg fun hh => h hh.symm, if_neg h]
  | cons hd rest ih =>
    obtain ⟨k0, f, b⟩ := hd
    by_cases h1 : k0 = segKey s
    · by_cases h2 : k = segKey s
      · have hk : k0 = k := h1.trans h2.symm
        simp only [dedupInsert, if_pos h1, alookup_cons, if_pos hk, if_pos h2]
      · have hk : ¬ k0 = k := fun hh => h2 (hh.symm.trans h1)
        simp only [dedupInsert, if_pos h1, alookup_cons, if_neg hk, if_neg h2]
    · by_cases h2 : k0 = k
      · have hks : ¬ k = segKey s := fun hh => h1 (h2.trans hh)
        simp only [dedupInsert, if_neg h1, alookup_cons, if_pos h2, if_neg hks]
      · simp only [dedupInsert, if_neg h1, alookup_cons, if_neg h2]
        exact ih

lemma dedup_foldl (segs : List SegmentEdge) :
    ∀ (m : List ((Nat × Nat) × (Bool × Bool))) (k : Nat × Nat),
      alookup (segs.foldl
          (fun m s => if s.start_idx = s.end_idx then m else dedupInsert m s) m) k =
        combineFlags (alookup m k) (segsAt segs k) := by
  induction segs with
  | nil =>
    intro m k
    simp [segsAt, combineFlags_nil]
  | cons s rest ih =>
    intro m k
    by_cases hdeg : s.start_idx = s.end_idx
    · have hfilter : segsAt (s :: rest) k = segsAt rest k := by
        simp [segsAt, hdeg]
      simp only [List.foldl_cons, if_pos hdeg, hfilter]
      exact ih m k
    · by_cases hkey : segKey s = k
      · have hfilter : segsAt (s :: rest) k = s :: segsAt rest k := by
          simp [segsAt, hdeg, hkey]
        simp only [List.foldl_cons, if_neg hdeg, hfilter]
        rw [ih (dedupInsert m s) k, alookup_dedupInsert, if_pos hkey.symm]
        rcases hbase : alookup m k with _ | ⟨f, b⟩
        · rw [combineFlags_none_cons]
        · rw [combineFlags_some_cons]
      · have hfilter : segsAt (s :: rest) k = segsAt rest k := by
          simp [segsAt, hdeg, hkey]
        simp only [List.foldl_cons, if_neg hdeg, hfilter]
        rw [ih (dedupInsert m s) k, alookup_dedupInsert,
          if_neg fun hh => hkey hh.symm]

/-- C7.  The deduplication map of the builder merges all segment instances
with the same unordered endpoint pair into one entry whose two flags are
the OR, over the merged segments, of running canonically or not being one
way (forward) and of running against the canonical direction or not being
one way (backward).  In particular two opposite oneway segments between
the same pair of distinct intersections produce exactly one map entry with
both flags true, hence one edge with backwards_allowed true. -/
theorem C7_dedup_or_merge (segs : List SegmentEdge) (k : Nat × Nat) (a b : Nat)
    (hab : a ≠ b) :
    (alookup (dedupEdges segs) k =
      if (segsAt segs k).isEmpty then none
      else some ((segsAt segs k).any segAllowsFwd, (segsAt segs k).any segAllowsBwd)) ∧
    dedupEdges [⟨a, b, true⟩, ⟨b, a, true⟩] = [((min a b, max a b), (true, true))] := by
  constructor
  · have h := dedup_foldl segs [] k
    simp only [dedupEdges]
    rw [h]
    rcases segsAt segs k with _ | ⟨s, l⟩
    · simp [combineFlags, alookup]
    · simp [combineFlags, alookup]
  · rcases lt_or_gt_of_ne hab with h | h
    · simp only [dedupEdges, List.foldl_cons, List.foldl_nil, if_neg hab,
        if_neg (Ne.symm hab), dedupInsert, segKey, segAllowsFwd, segAllowsBwd,
        segCanonical]
      rw [Nat.min_comm b a, Nat.max_comm b a, if_pos rfl]
      simp [h, Nat.lt_asymm h]
    · simp only [dedupEdges, List.foldl_cons, List.foldl_nil, if_neg hab,
        if_neg (Ne.symm hab), dedupInsert, segKey, segAllowsFwd, segAllowsBwd,
        segCanonical]
      rw [Nat.min_comm b a, Nat.max_comm b a, if_pos rfl]
      simp [h, Nat.lt_asymm h]

/-- C7 witness: the merge applied to a concrete opposite oneway pair. -/
theorem C7_oneway_pair_witness :
    dedupEdges [⟨3, 7, true⟩, ⟨7, 3, true⟩] = [((min 3 7, max 3 7), (true, true))] :=
  (C7_dedup_or_merge [] (0, 0) 3 7 (by decide)).2

/-- Sixteen hex digits of a u64 cell id, most significant first, as
formatted by the S2 token computation. -/
def hexDigits (id : Nat) : List Nat :=
  (List.range 16).map (fun i => id / 16 ^ (15 - i) % 16)

/-- S2 token of a nonzero cell id: the hex digit string with trailing zero
digits stripped (the id zero, whose token is the letter X, never names a
valid cell and does not occur here). -/
def cellToken (id : Nat) : List Nat :=
  ((hexDigits id).reverse.dropWhile (fun d => d == 0)).reverse

/-- Lexicographic order on token digit strings, the string comparison
under the to_token sort keys of the builder. -/
def tokenLt : List Nat → List Nat → Bool
  | [], [] => false
  | [], _ :: _ => true
  | _ :: _, [] => false
  | a :: as, b :: bs => if a < b then true else if b < a then false else tokenLt as bs

/-- One intersection as the builder sees it when sorting: its osm node id
and the cell id of its location (the cell id is a deterministic function
of the coordinates, so it is the same in every run). -/
structure OsmNodeItem where
  osm_id : Nat
  cell_id : Nat
  deriving Repr, DecidableEq

/-- Stable insertion: the new element goes before every element whose key
does not compare strictly below it, so elements with equal keys keep their
original relative order. -/
def insertByToken (x : OsmNodeItem) : List OsmNodeItem → List OsmNodeItem
  | [] => [x]
  | y :: ys =>
    if tokenLt (cellToken y.cell_id) (cellToken x.cell_id) then y :: insertByToken x ys
    else x :: y :: ys

/-- Stable sort of the intersection vector by cell token, modeling the
stable par_sort_by_key at graphbuild lib.rs line 313.  The input order is
the iteration order of the intersections HashMap, which uses a randomly
seeded hasher and is therefore not a function of the OSM input bytes. -/
def sortNodesByToken (items : List OsmNodeItem) : List OsmNodeItem :=
  items.foldr insertByToken []

/-- Dense node index assignment (node_id_to_index, graphbuild lib.rs lines
318 to 321): position of the osm id in the sorted vector. -/
def nodeIndexOf (sorted : List OsmNodeItem) (osm : Nat) : Option Nat :=
  sorted.findIdx? (fun it => it.osm_id == osm)

/-- Edge structs emitted by the node indexing, edge distillation, dedup
and cost packing phases for single segment ways between intersections at
coincident locations (geodesic distance zero, so every car permitted drive
cost clamps to one second and no float enters the computation), keyed by
the hash iteration order of the intersection map.  The emitted edge vector
of the graph blob is some ordering of this list; its multiset of edge
structs is already determined here. -/
def buildEdgeStructs (items : List OsmNodeItem) (ways : List (Nat × Nat × Bool)) :
    List Edge :=
  let sorted := sortNodesByToken items
  let segs := ways.filterMap (fun w =>
    match nodeIndexOf sorted w.1, nodeIndexOf sorted w.2.1 with
    | some ia, some ib => some (⟨ia, ib, w.2.2⟩ : SegmentEdge)
    | _, _ => none)
  (dedupEdges segs).map (fun e =>
    ⟨e.1.1, e.1.2, encode_costs_and_flags (drive_cost_of true 0) e.2.2⟩)

/-- First hash iteration order: osm node one seen before osm node two. -/
def runOrder1 : List OsmNodeItem := [⟨1, 5⟩, ⟨2, 5⟩, ⟨3, 9⟩]

/-- Second hash iteration order of the same intersection map. -/
def runOrder2 : List OsmNodeItem := [⟨2, 5⟩, ⟨1, 5⟩, ⟨3, 9⟩]

/-- Two ways: a oneway road from osm node one to osm node three and a
bidirectional road from osm node two to osm node three, where nodes one
and two are at the same location (equal cell ids, hence equal tokens). -/
def c8Ways : List (Nat × Nat × Bool) := [(1, 3, true), (2, 3, false)]

/-- C8.  The builder sorts intersections only by cell token, with no osm
id tie break, and the pre sort order is the HashMap iteration order: on an
input with two intersections at the same location the two iteration orders
of the same map yield edge vectors that differ even as multisets (the
oneway flag sits on different endpoint index pairs), so the emitted graph
blobs cannot be byte identical across runs.  This refutes the determinism
claim on the code as written. -/
theorem C8_hash_order_leaks_into_output :
    runOrder1.Perm runOrder2 ∧
    ¬ (buildEdgeStructs runOrder1 c8Ways).Perm (buildEdgeStructs runOrder2 c8Ways) := by
  decide

/-- Build phase consistency of the incident lists: every edge index in the
incident list of node n names a real edge having n as its endpoint one, or
as its endpoint two with backwards travel allowed.  This is exactly what
the back reference loop of the builder establishes (graphbuild lib.rs
lines 529 to 543): each edge index is appended to the list of its endpoint
one, and to the list of its endpoint two only when backwards_allowed. -/
def incidentOk (g : GraphBlob) : Bool :=
  (List.range g.nodes.length).all fun n =>
    match g.nodes[n]? with
    | none => true
    | some node => node.edges.all fun e =>
        match g.edges[e]? with
        | none => false
        | some ed =>
          (ed.point_1_node_idx == n) || ((ed.point_2_node_idx == n) && backwardsAllowed ed)

lemma incidentOk_spec {g : GraphBlob} (hg : incidentOk g = true) {n : Nat}
    {node : GraphNode} (hn : g.nodes[n]? = some node) {e : Nat} (he : e ∈ node.edges) :
    ∃ ed, g.edges[e]? = some ed ∧
      (ed.point_1_node_idx = n ∨ (ed.point_2_node_idx = n ∧ backwardsAllowed ed = true)) := by
  have hlt : n < g.nodes.length := by
    by_contra hge
    rw [List.getElem?_eq_none (Nat.le_of_not_lt hge)] at hn
    cases hn
  have h1 := List.all_eq_true.mp hg n (List.mem_range.mpr hlt)
  rw [hn] at h1
  have h2 := List.all_eq_true.mp h1 e he
  cases hed : g.edges[e]? with
  | none => rw [hed] at h2; cases h2
  | some ed =>
    rw [hed] at h2
    refine ⟨ed, rfl, ?_⟩
    simp only [Bool.or_eq_true, Bool.and_eq_true, beq_iff_eq] at h2
    exact h2

/-- Invariant of the Dijkstra predecessor map: every recorded entry from
an edge to a predecessor and shared node refers to a node whose incident
list contains that edge (the entry was produced by get_adjacent_edges at
that node). -/
def PrevInv (g : GraphBlob) (prev : List (Nat × Nat × Nat)) : Prop :=
  ∀ p ∈ prev, ∃ node, g.nodes[p.2.2]? = some node ∧ p.1 ∈ node.edges

lemma alookup_mem {κ α : Type} [DecidableEq κ] (m : List (κ × α)) (k : κ) (v : α)
    (h : alookup m k = some v) : (k, v) ∈ m := by
  induction m with
  | nil => cases h
  | cons hd rest ih =>
    obtain ⟨k0, v0⟩ := hd
    rw [alookup_cons] at h
    by_cases hk : k0 = k
    · rw [if_pos hk] at h
      injection h with h
      subst hk
      subst h
      exact List.mem_cons_self _ _
    · rw [if_neg hk] at h
      exact List.mem_cons_of_mem _ (ih h)

lemma mem_get_adjacent_edges {g : GraphBlob} {eid n x : Nat}
    (h : x ∈ get_adjacent_edges g eid n) :
    ∃ node, g.nodes[n]? = some node ∧ x ∈ node.edges := by
  unfold get_adjacent_edges at h
  cases hn : g.nodes[n]? with
  | none => rw [hn] at h; cases h
  | some node =>
    rw [hn] at h
    exact ⟨node, rfl, (List.mem_filter.mp h).1⟩

lemma relaxEdge_prev_cases (g : GraphBlob) (avoid : List Nat)
    (end_e cost current node_idx : Nat) (st : SPState) (x : Nat) :
    (relaxEdge g avoid end_e cost current node_idx st x).prev_info = st.prev_info ∨
    (relaxEdge g avoid end_e cost current node_idx st x).prev_info =
      (x, current, node_idx) :: st.prev_info := by
  unfold relaxEdge
  split
  · left; rfl
  · split
    · dsimp only
      split
      · right; rfl
      · left; rfl
    · right; rfl

lemma relaxEdge_prevInv {g : GraphBlob} {avoid : List Nat}
    {end_e cost current node_idx : Nat} {st : SPState} {x : Nat}
    (hst : PrevInv g st.prev_info) (hx : x ∈ get_adjacent_edges g current node_idx) :
    PrevInv g (relaxEdge g avoid end_e cost current node_idx st x).prev_info := by
  rcases relaxEdge_prev_cases g avoid end_e cost current node_idx st x with hc | hc <;>
    rw [hc]
  · exact hst
  · intro p hp
    rcases List.mem_cons.mp hp with rfl | hp'
    · exact mem_get_adjacent_edges hx
    · exact hst p hp'

lemma expandNode_prevInv {g : GraphBlob} {avoid : List Nat}
    {end_e cost current node_idx : Nat} {st : SPState}
    (hst : PrevInv g st.prev_info) :
    PrevInv g (expandNode g avoid end_e cost current node_idx st).prev_info := by
  unfold expandNode
  have haux : ∀ (l : List Nat), (∀ x ∈ l, x ∈ get_adjacent_edges g current node_idx) →
      ∀ st0 : SPState, PrevInv g st0.prev_info →
      PrevInv g ((l.foldl (relaxEdge g avoid end_e cost current node_idx) st0)).prev_info := by
    intro l
    induction l with
    | nil => intro _ st0 h0; exact h0
    | cons a as ih =>
      intro hsub st0 h0
      simp only [List.foldl_cons]
      exact ih (fun x hx => hsub x (List.mem_cons_of_mem a hx)) _
        (relaxEdge_prevInv h0 (hsub a (List.mem_cons_self a as)))
  exact haux _ (fun x hx => hx) st hst

/-- Legality of entries along a reconstructed path: the edge following the
i th connecting node is entered at that node through its endpoint one, or
carries the backwards permission. -/
def PathLegal (g : GraphBlob) (es ns : List Nat) : Prop :=
  ∀ i e n ed, ns[i]? = some n → es[i + 1]? = some e → g.edges[e]? = some ed →
    ed.point_1_node_idx = n ∨ backwardsAllowed ed = true

lemma walkBack_legal {g : GraphBlob} (hg : incidentOk g = true)
    {prev : List (Nat × Nat × Nat)} (hprev : PrevInv g prev) (start_e : Nat) :
    ∀ fuel cur es ns, walkBack prev start_e fuel cur = some (es, ns) →
      PathLegal g es ns ∧ (es = [] ∨ es.length = ns.length + 1) := by
  intro fuel
  induction fuel with
  | zero => intro cur es ns h; cases h
  | succ fuel ih =>
    intro cur es ns h
    rw [walkBack] at h
    by_cases hcur : cur = start_e
    · rw [if_pos hcur] at h
      injection h with h
      injection h with h1 h2
      subst h1; subst h2
      refine ⟨?_, Or.inr rfl⟩
      intro i e n ed hn _ _
      simp at hn
    · rw [if_neg hcur] at h
      cases hlook : alookup prev cur with
      | none =>
        simp only [hlook] at h
        injection h with h
        injection h with h1 h2
        subst h1; subst h2
        refine ⟨?_, Or.inl rfl⟩
        intro i e n ed hn _ _
        simp at hn
      | some pn =>
        obtain ⟨pe, n0⟩ := pn
        simp only [hlook] at h
        cases hrec : walkBack prev start_e fuel pe with
        | none =>
          simp only [hrec] at h
          exact Option.noConfusion h
        | some q =>
          obtain ⟨es0, ns0⟩ := q
          simp only [hrec] at h
          obtain ⟨hleg0, hlen0⟩ := ih pe es0 ns0 hrec
          by_cases hemp : es0.isEmpty = true
          · rw [if_pos hemp] at h
            injection h with h
            injection h with h1 h2
            subst h1; subst h2
            refine ⟨?_, Or.inl rfl⟩
            intro i e n ed hn _ _
            simp at hn
          · rw [if_neg hemp] at h
            injection h with h
            injection h with h1 h2
            subst h1; subst h2
            have hlen : es0.length = ns0.length + 1 := by
              rcases hlen0 with h0 | h0
              · exact absurd (by rw [h0]; rfl) hemp
              · exact h0
            constructor
            · intro i e n ed hn he hed
              by_cases hi : i < ns0.length
              · rw [List.getElem?_append_left hi] at hn
                rw [List.getElem?_append_left (by omega : i + 1 < es0.length)] at he
                exact hleg0 i e n ed hn he hed
              · by_cases hi2 : i = ns0.length
                · rw [hi2] at hn he
                  rw [List.getElem?_append_right (le_refl _), Nat.sub_self] at hn
                  have hle : es0.length ≤ ns0.length + 1 := by omega
                  rw [List.getElem?_append_right hle, hlen, Nat.sub_self] at he
                  simp only [List.getElem?_cons_zero] at hn he
                  injection hn with hn
                  injection he with he
                  subst hn
                  subst he
                  obtain ⟨node, hnode, hmem⟩ :=
                    hprev (cur, pe, n0) (alookup_mem _ _ _ hlook)
                  obtain ⟨ed2, hed2, hp⟩ := incidentOk_spec hg hnode hmem
                  rw [hed] at hed2
                  injection hed2 with hed2
                  subst hed2
                  rcases hp with hp | hp
                  · exact Or.inl hp
                  · exact Or.inr hp.2
                · have hgt : ns0.length ≤ i := by omega
                  rw [List.getElem?_append_right hgt] at hn
                  have hnone : ([n0] : List Nat)[i - ns0.length]? = none := by
                    apply List.getElem?_eq_none
                    simp only [List.length_singleton]
                    omega
                  rw [hnone] at hn
                  cases hn
            · right
              simp [hlen]

lemma spLoop_found_legal {g : GraphBlob} (hg : incidentOk g = true)
    (avoid : List Nat) (start_e end_e : Nat) :
    ∀ fuel st es ns, PrevInv g st.prev_info →
      spLoop g avoid start_e end_e fuel st = .found es ns → PathLegal g es ns := by
  intro fuel
  induction fuel with
  | zero => intro st es ns _ h; cases h
  | succ fuel ih =>
    intro st es ns hprev h
    rw [spLoop] at h
    cases hpq : st.pq with
    | nil => rw [hpq] at h; cases h
    | cons hd rest =>
      obtain ⟨cost, current⟩ := hd
      simp only [hpq] at h
      by_cases hend : current = end_e
      · rw [if_pos hend] at h
        cases hwb : walkBack st.prev_info start_e (st.prev_info.length + 2) end_e with
        | none =>
          simp only [hwb] at h
          exact SPResult.noConfusion h
        | some q =>
          obtain ⟨es0, ns0⟩ := q
          simp only [hwb] at h
          injection h with h1 h2
          subst h1; subst h2
          exact (walkBack_legal hg hprev start_e _ _ _ _ hwb).1
      · rw [if_neg hend] at h
        split at h
        · exact ih { st with pq := rest } es ns hprev h
        · cases hedge : g.edges[current]? with
          | none =>
            simp only [hedge] at h
            exact SPResult.noConfusion h
          | some ed =>
            simp only [hedge] at h
            refine ih (expandNode g avoid end_e cost current ed.point_2_node_idx
              (expandNode g avoid end_e cost current ed.point_1_node_idx
                { st with pq := rest })) es ns ?_ h
            exact expandNode_prevInv (expandNode_prevInv hprev)

lemma find_shortest_path_legal {g : GraphBlob} (hg : incidentOk g = true)
    {s e : Nat} {avoid : List Nat} {fuel : Nat} {es ns : List Nat}
    (h : find_shortest_path g s e avoid fuel = .found es ns) : PathLegal g es ns :=
  spLoop_found_legal hg avoid s e fuel _ es ns (fun _ hp => absurd hp (List.not_mem_nil _)) h

lemma findMorePaths_paths_from (g : GraphBlob) (s e fuel : Nat) :
    ∀ k used acc out, findMorePaths g s e fuel k used acc = .ok out →
      ∀ p ∈ out, p ∈ acc ∨
        ∃ av, find_shortest_path g s e av fuel = .found p.1 p.2 := by
  intro k
  induction k with
  | zero =>
    intro used acc out h p hp
    simp only [findMorePaths] at h
    injection h with h
    subst h
    exact Or.inl hp
  | succ k ih =>
    intro used acc out h p hp
    simp only [findMorePaths] at h
    cases hsp : find_shortest_path g s e used fuel <;> simp only [hsp] at h
    case found es ns =>
      by_cases hemp : es.isEmpty = true
      · rw [if_pos hemp] at h
        injection h with h
        subst h
        exact Or.inl hp
      · rw [if_neg hemp] at h
        rcases ih (es ++ used) (acc ++ [(es, ns)]) out h p hp with hin | hex
        · rcases List.mem_append.mp hin with hin | hin
          · exact Or.inl hin
          · simp at hin
            subst hin
            exact Or.inr ⟨used, hsp⟩
        · exact Or.inr hex
    case noPath =>
      injection h with h
      subst h
      exact Or.inl hp
    case panicked => exact PathsResult.noConfusion h
    case fuelOut => exact PathsResult.noConfusion h

lemma find_paths_paths_from {g : GraphBlob} {s e maxp fuel : Nat}
    {out : List (List Nat × List Nat)} (h : find_paths g s e maxp fuel = .ok out) :
    ∀ p ∈ out, ∃ av, find_shortest_path g s e av fuel = .found p.1 p.2 := by
  intro p hp
  simp only [find_paths] at h
  cases hsp : find_shortest_path g s e [] fuel <;> simp only [hsp] at h
  case found es ns =>
    rcases findMorePaths_paths_from g s e fuel (maxp - 1) es [(es, ns)] out h p hp with
      hin | hex
    · simp at hin
      subst hin
      exact ⟨[], hsp⟩
    · exact hex
  case noPath => exact PathsResult.noConfusion h
  case panicked => exact PathsResult.noConfusion h
  case fuelOut => exact PathsResult.noConfusion h

/-- One deduplicated edge of the edge_node_pairs vector right before the
node back reference phase of the builder: canonical endpoints, clamped
drive cost, backwards flag and the two endpoint interactions. -/
structure BuiltEdge where
  start_idx : Nat
  end_idx : Nat
  drive_cost : Nat
  backwards : Bool
  start_interaction : Nat
  end_interaction : Nat
  deriving Repr, DecidableEq

/-- In place update of one list position, a no op when out of range. -/
def listModify {α : Type} (l : List α) (i : Nat) (f : α → α) : List α :=
  match l[i]? with
  | none => l
  | some a => l.set i (f a)

/-- Node back reference loop of the builder (graphbuild lib.rs lines 529
to 543): in edge index order, each edge is appended to the incident list
of its endpoint one together with its forward interaction pair and, when
backwards travel is allowed, also to the incident list of its endpoint two
with the reversed interaction pair. -/
def addEdgeRefs (numNodes : Nat) (edges : List BuiltEdge) : List GraphNode :=
  edges.enum.foldl
    (fun nodes p =>
      let nodes1 := listModify nodes p.2.start_idx (fun nd =>
        ⟨nd.edges ++ [p.1],
          nd.interactions ++ [⟨p.2.start_interaction, p.2.end_interaction⟩]⟩)
      if p.2.backwards then
        listModify nodes1 p.2.end_idx (fun nd =>
          ⟨nd.edges ++ [p.1],
            nd.interactions ++ [⟨p.2.end_interaction, p.2.start_interaction⟩]⟩)
      else nodes1)
    (List.replicate numNodes ⟨[], []⟩)

/-- Graph blob assembled from the built edges: the edge vector packs each
cost and flag word with encode_costs_and_flags, the node vector carries
the back references. -/
def graphOfBuilt (numNodes : Nat) (edges : List BuiltEdge) : GraphBlob :=
  { edges := edges.map (fun e =>
      ⟨e.start_idx, e.end_idx, encode_costs_and_flags e.drive_cost e.backwards⟩),
    nodes := addEdgeRefs numNodes edges }

lemma encode_mod_two (dc : Nat) (b : Bool) :
    encode_costs_and_flags dc b % 2 = if b then 1 else 0 := by
  unfold encode_costs_and_flags
  cases b with
  | false =>
    simp only [Bool.false_eq_true, if_false]
    rw [Nat.or_zero, Nat.shiftLeft_eq,
      Nat.mod_mod_of_dvd _ (by norm_num : (2 : Nat) ∣ 65536)]
    omega
  | true =>
    simp only [if_true]
    have h : ((dc <<< 2) % 65536 ||| 1).testBit 0 = true := by
      rw [Nat.testBit_lor]
      simp
    rw [Nat.testBit_zero] at h
    exact of_decide_eq_true h

lemma backwardsAllowed_encode (p1 p2 dc : Nat) (b : Bool) :
    backwardsAllowed ⟨p1, p2, encode_costs_and_flags dc b⟩ = b := by
  cases b <;> simp [backwardsAllowed, encode_mod_two]

lemma listModify_getElem {α : Type} (l : List α) (i : Nat) (f : α → α) (n : Nat) :
    (listModify l i f)[n]? = if i = n then Option.map f l[n]? else l[n]? := by
  unfold listModify
  cases hi : l[i]? with
  | none =>
    by_cases h : i = n
    · subst h
      rw [if_pos rfl, hi]
      rfl
    · rw [if_neg h]
  | some a =>
    by_cases h : i = n
    · subst h
      rw [if_pos rfl, hi]
      have hlt : i < l.length := by
        by_contra hge
        rw [List.getElem?_eq_none (Nat.le_of_not_lt hge)] at hi
        cases hi
      rw [List.getElem?_set_self hlt]
      rfl
    · rw [if_neg h, List.getElem?_set_ne h]

/-- The invariant carried through the back reference fold: every recorded
incident edge index points at an edge having the node as endpoint one, or
as endpoint two with backwards travel allowed. -/
def RefInv (edges : List BuiltEdge) (nodes : List GraphNode) : Prop :=
  ∀ (n : Nat) (node : GraphNode), nodes[n]? = some node → ∀ x ∈ node.edges,
    ∃ be : BuiltEdge, edges[x]? = some be ∧
      (be.start_idx = n ∨ (be.end_idx = n ∧ be.backwards = true))

lemma refInv_listModify {edges : List BuiltEdge} {nodes : List GraphNode}
    (hinv : RefInv edges nodes) {i pos : Nat} {be : BuiltEdge}
    (hbe : edges[i]? = some be)
    (hpos : be.start_idx = pos ∨ (be.end_idx = pos ∧ be.backwards = true))
    (ints : Interaction) :
    RefInv edges (listModify nodes pos
      (fun nd => ⟨nd.edges ++ [i], nd.interactions ++ [ints]⟩)) := by
  intro n node hnode x hx
  rw [listModify_getElem] at hnode
  by_cases h : pos = n
  · rw [if_pos h] at hnode
    cases hold : nodes[n]? with
    | none =>
      rw [hold] at hnode
      cases hnode
    | some old =>
      rw [hold] at hnode
      injection hnode with hnode
      subst hnode
      rcases List.mem_append.mp hx with hx2 | hx2
      · exact hinv n old hold x hx2
      · simp at hx2
        subst hx2
        exact ⟨be, hbe, h ▸ hpos⟩
  · rw [if_neg h] at hnode
    exact hinv n node hnode x hx

lemma addEdgeRefs_refInv (numNodes : Nat) (edges : List BuiltEdge) :
    RefInv edges (addEdgeRefs numNodes edges) := by
  unfold addEdgeRefs
  have main : ∀ (ps : List (Nat × BuiltEdge)) (nodes : List GraphNode),
      (∀ q ∈ ps, edges[q.1]? = some q.2) → RefInv edges nodes →
      RefInv edges (ps.foldl
        (fun nodes p =>
          let nodes1 := listModify nodes p.2.start_idx (fun nd =>
            ⟨nd.edges ++ [p.1],
              nd.interactions ++ [⟨p.2.start_interaction, p.2.end_interaction⟩]⟩)
          if p.2.backwards then
            listModify nodes1 p.2.end_idx (fun nd =>
              ⟨nd.edges ++ [p.1],
                nd.interactions ++ [⟨p.2.end_interaction, p.2.start_interaction⟩]⟩)
          else nodes1)
        nodes) := by
    intro ps
    induction ps with
    | nil => intro nodes _ hinv; exact hinv
    | cons q qs ih =>
      intro nodes hps hinv
      simp only [List.foldl_cons]
      refine ih _ (fun r hr => hps r (List.mem_cons_of_mem _ hr)) ?_
      have hq := hps q (List.mem_cons_self _ _)
      have hstep1 := refInv_listModify hinv hq (Or.inl rfl)
        ⟨q.2.start_interaction, q.2.end_interaction⟩
      by_cases hb : q.2.backwards
      · simp only [hb, if_true]
        exact refInv_listModify hstep1 hq (Or.inr ⟨rfl, hb⟩)
          ⟨q.2.end_interaction, q.2.start_interaction⟩
      · simp only [hb]
        simpa using hstep1
  apply main
  · intro q hq
    exact List.mem_enum_iff_getElem?.mp hq
  · intro n node hnode x hx
    rcases Nat.lt_or_ge n numNodes with hlt | hge
    · rw [List.getElem?_replicate_of_lt hlt] at hnode
      injection hnode with hnode
      subst hnode
      cases hx
    · rw [List.getElem?_eq_none (by simpa using hge)] at hnode
      cases hnode

/-- The back reference phase of the builder produces a graph whose
incident lists satisfy the invariant the route search relies on: an edge
appears under a node only as its endpoint one, or as its endpoint two with
backwards travel allowed. -/
lemma graphOfBuilt_incidentOk (numNodes : Nat) (edges : List BuiltEdge) :
    incidentOk (graphOfBuilt numNodes edges) = true := by
  unfold incidentOk
  rw [List.all_eq_true]
  intro n _
  cases hnode : (graphOfBuilt numNodes edges).nodes[n]? with
  | none => rfl
  | some node =>
    rw [List.all_eq_true]
    intro e he
    have hmem := addEdgeRefs_refInv numNodes edges n node hnode e he
    obtain ⟨be, hbe, hpos⟩ := hmem
    have hmap : (graphOfBuilt numNodes edges).edges[e]? =
        some ⟨be.start_idx, be.end_idx,
          encode_costs_and_flags be.drive_cost be.backwards⟩ := by
      show (edges.map _)[e]? = _
      rw [List.getElem?_map, hbe]
      rfl
    rw [hmap]
    rcases hpos with hpos | ⟨hpos, hbw⟩
    · simp [hpos]
    · simp [hpos, backwardsAllowed_encode, hbw]

/-- C4 amended.  On a graph whose incident lists satisfy the builder
invariant (an edge is listed under its endpoint one, and under its
endpoint two only when backwards_allowed, graphbuild lib.rs lines 529 to
543), every path returned by the route RPC enters each edge AFTER THE
FIRST at the recorded connecting node legally: the node is the endpoint
one of that edge or the edge allows backwards travel, so no one way edge
other than the start edge is ever traversed from endpoint two to endpoint
one.  The search itself performs no legality filtering: get_adjacent_edges
returns every incident edge, and legality is inherited from the build time
incident lists alone; in particular the start edge is expanded through
both of its endpoints regardless of its backwards flag, which is why the
original claim fails for start edges (see the counterexample). -/
theorem C4_no_illegal_reverse_entry (g : GraphBlob) (hg : incidentOk g = true)
    (req : RouteRequest) (fuel : Nat) (paths : List (List Nat × List Nat))
    (h : route (some g) req fuel = .ok paths) :
    ∀ p ∈ paths, ∀ i e n ed, p.2[i]? = some n → p.1[i + 1]? = some e →
      g.edges[e]? = some ed → ed.point_1_node_idx = n ∨ backwardsAllowed ed = true := by
  intro p hp
  simp only [route] at h
  cases hfp : find_paths g req.start_edge_idx req.end_edge_idx 3 fuel <;>
    simp only [hfp] at h
  case err => exact RouteStatus.noConfusion h
  case panicked => exact RouteStatus.noConfusion h
  case fuelOut => exact RouteStatus.noConfusion h
  case ok out =>
    injection h with h
    subst h
    obtain ⟨av, hsp⟩ := find_paths_paths_from hfp p hp
    exact find_shortest_path_legal hg hsp

/-- C4 counterexample.  In forkGraph, edge zero is one way from node zero
to node one (backwards_allowed false), and the route from edge zero to
edge one leaves the start edge through node zero, its endpoint ONE: the
returned path therefore travels the one way start edge from its endpoint
two side to its endpoint one, which the claim, explicitly covering paths
where the edge is the start edge, forbids.  No successor was dropped. -/
theorem C4_counterexample_start_edge_reverse :
    incidentOk forkGraph = true ∧
    forkGraph.edges[0]? = some ⟨0, 1, 4⟩ ∧
    backwardsAllowed ⟨0, 1, 4⟩ = false ∧
    route (some forkGraph) ⟨0, 1, none⟩ 20 =
      .ok [([0, 1], [0]), ([0, 1], [0]), ([0, 1], [0])] := by decide

/-- C4 witness: the amended theorem applied to the concrete fork graph run
at the first path, first hop (node zero into edge one). -/
theorem C4_reverse_entry_witness :
    (Edge.mk 0 2 4).point_1_node_idx = 0 ∨ backwardsAllowed (Edge.mk 0 2 4) = true :=
  C4_no_illegal_reverse_entry forkGraph (by decide) ⟨0, 1, none⟩ 20
    [([0, 1], [0]), ([0, 1], [0]), ([0, 1], [0])] (by decide)
    ([0, 1], [0]) (by decide) 0 1 0 ⟨0, 2, 4⟩ (by decide) (by decide) (by decide)

/-- Power of two marking the least significant set bit of a cell id at a
given level (S2 cell ids, maximum level thirty). -/
def lsbForLevel (level : Nat) : Nat := 1 <<< (2 * (30 - level))

/-- Parent cell id at a level, as computed through the S2 library by
parent_cell_id in snapbuild lib.rs: clear every bit below the level lsb
(bitwise and with the wrapping u64 negation of the lsb, that is two to the
sixty fourth minus it) and set that lsb. -/
def parent_cell_id (cell_id : Nat) (level : Nat) : Nat :=
  (cell_id &&& (18446744073709551616 - lsbForLevel level)) ||| lsbForLevel level

/-- Inner bucket of the snap index: an inner cell id and the two parallel
vectors of edge representative cells and edge indices. -/
structure InnerBucketData where
  cell_id : Nat
  edge_cell_ids : List Nat
  edge_indexes : List Nat
  deriving Repr, DecidableEq

/-- Outer bucket of the snap index: one output file worth of inner
buckets, keyed by inner cell id (hash maps modeled as association lists;
bucket contents and membership do not depend on hash order because the
node loop runs in index order). -/
structure OuterBucketData where
  cell_id : Nat
  inner_buckets : List (Nat × InnerBucketData)
  deriving Repr, DecidableEq

/-- The or_insert of an empty inner bucket. -/
def ensureInner : List (Nat × InnerBucketData) → Nat → List (Nat × InnerBucketData)
  | [], key => [(key, ⟨key, [], []⟩)]
  | (k0, ib) :: rest, key =>
    if k0 = key then (k0, ib) :: rest else (k0, ib) :: ensureInner rest key

/-- Push of one (representative cell, edge index) pair into the inner
bucket at the key, creating the bucket when absent (entry or_insert
followed by the two vector pushes). -/
def innerPush : List (Nat × InnerBucketData) → Nat → Nat → Nat →
    List (Nat × InnerBucketData)
  | [], key, c, e => [(key, ⟨key, [c], [e]⟩)]
  | (k0, ib) :: rest, key, c, e =>
    if k0 = key then
      (k0, ⟨ib.cell_id, ib.edge_cell_ids ++ [c], ib.edge_indexes ++ [e]⟩) :: rest
    else (k0, ib) :: innerPush rest key c e

/-- The or_insert of an empty inner bucket inside the outer bucket at the
outer key.  A missing outer key would be the unwrap panic of the Rust
code; it cannot occur because the first pass seeds every outer parent of a
node location, and the model leaves the map unchanged there. -/
def ensureOuterInner (m : List (Nat × OuterBucketData)) (outerId innerId : Nat) :
    List (Nat × OuterBucketData) :=
  match m with
  | [] => []
  | (k0, ob) :: rest =>
    if k0 = outerId then (k0, ⟨ob.cell_id, ensureInner ob.inner_buckets innerId⟩) :: rest
    else (k0, ob) :: ensureOuterInner rest outerId innerId

/-- Push of one entry through the outer map into the inner bucket. -/
def outerPush (m : List (Nat × OuterBucketData)) (outerId innerId c e : Nat) :
    List (Nat × OuterBucketData) :=
  match m with
  | [] => []
  | (k0, ob) :: rest =>
    if k0 = outerId then
      (k0, ⟨ob.cell_id, innerPush ob.inner_buckets innerId c e⟩) :: rest
    else (k0, ob) :: outerPush rest outerId innerId c e

/-- First pass of build_outer_buckets: the set of outer parents of all
node location cells, in first occurrence order. -/
def collectOuters (locs : List Nat) (outerL : Nat) : List Nat :=
  locs.foldl
    (fun acc c =>
      if parent_cell_id c outerL ∈ acc then acc else acc ++ [parent_cell_id c outerL])
    []

/-- Initialization of one empty outer bucket per collected outer cell. -/
def initOuter (outers : List Nat) : List (Nat × OuterBucketData) :=
  outers.map (fun o => (o, ⟨o, []⟩))

/-- The entry recorded for incident edge e of node i: the guards of the
inner loop of build_outer_buckets (edge index in range, opposite endpoint
location in range), the OPPOSITE endpoint of the edge as target, and that
target node location cell as the recorded representative cell. -/
def edgeEntryFor (g : GraphBlob) (locs : List Nat) (i e : Nat) : Option (Nat × Nat) :=
  match g.edges[e]? with
  | none => none
  | some ed =>
    let target := if ed.point_1_node_idx = i then ed.point_2_node_idx
      else ed.point_1_node_idx
    match locs[target]? with
    | none => none
    | some c => some (c, e)

/-- Processing of one node index by the main loop of build_outer_buckets:
ensure the inner bucket under the parents of the NODE location cell, then
push one entry per incident edge of the graph node at the same index. -/
def processNode (g : GraphBlob) (locs : List Nat) (outerL innerL : Nat)
    (m : List (Nat × OuterBucketData)) (i : Nat) : List (Nat × OuterBucketData) :=
  match locs[i]? with
  | none => m
  | some cellId =>
    let m1 := ensureOuterInner m (parent_cell_id cellId outerL)
      (parent_cell_id cellId innerL)
    match g.nodes[i]? with
    | none => m1
    | some node =>
      node.edges.foldl
        (fun m e =>
          match edgeEntryFor g locs i e with
          | none => m
          | some q => outerPush m (parent_cell_id cellId outerL)
              (parent_cell_id cellId innerL) q.1 q.2)
        m1

/-- The two passes over node locations of build_outer_buckets. -/
def mainPass (g : GraphBlob) (locs : List Nat) (outerL innerL : Nat) :
    List (Nat × OuterBucketData) :=
  (List.range locs.length).foldl (processNode g locs outerL innerL)
    (initOuter (collectOuters locs outerL))

/-- Padding pass of build_outer_buckets (snapbuild lib.rs lines 186 to
210): for each outer bucket, ensure an empty inner bucket for each of the
synthetic inner ids derived from the outer id by shifting and oring the
counter. -/
def padOuter (outerL innerL : Nat) (ob : OuterBucketData) : OuterBucketData :=
  ⟨ob.cell_id,
    (List.range ((1 <<< (innerL - outerL)) * (1 <<< (innerL - outerL)))).foldl
      (fun ibs i => ensureInner ibs ((ob.cell_id <<< ((innerL - outerL) * 2)) ||| i))
      ob.inner_buckets⟩

/-- The full build_outer_buckets of snapbuild lib.rs. -/
def build_outer_buckets (g : GraphBlob) (locs : List Nat) (outerL innerL : Nat) :
    List (Nat × OuterBucketData) :=
  (mainPass g locs outerL innerL).map (fun p => (p.1, padOuter outerL innerL p.2))

/-- All edge index occurrences across every inner bucket of every file. -/
def innerFlat (ibs : List (Nat × InnerBucketData)) : List Nat :=
  ibs.flatMap (fun q => q.2.edge_indexes)

/-- Every edge index occurrence in the whole snap index. -/
def bucketsEdgeIndexes (m : List (Nat × OuterBucketData)) : List Nat :=
  m.flatMap (fun p => innerFlat p.2.inner_buckets)

/-- Incident edge list of node i, empty when out of range. -/
def nodesEdges (g : GraphBlob) (i : Nat) : List Nat :=
  match g.nodes[i]? with
  | none => []
  | some node => node.edges

/-- Outer file keys of the snap index map. -/
def outerKeys (m : List (Nat × OuterBucketData)) : List Nat := m.map Prod.fst

lemma count_innerFlat_innerPush (ibs : List (Nat × InnerBucketData)) (k c e x : Nat) :
    (innerFlat (innerPush ibs k c e)).count x =
      (innerFlat ibs).count x + (if e = x then 1 else 0) := by
  induction ibs with
  | nil => simp [innerPush, innerFlat, List.count_cons, beq_iff_eq]
  | cons hd rest ih =>
    obtain ⟨k0, ib⟩ := hd
    by_cases h : k0 = k
    · simp only [innerPush, if_pos h, innerFlat, List.flatMap_cons, List.count_append]
      simp [List.count_cons, beq_iff_eq]
      omega
    · simp only [innerPush, if_neg h, innerFlat, List.flatMap_cons, List.count_append]
      simp only [innerFlat] at ih
      rw [ih]
      omega

lemma innerFlat_ensureInner (ibs : List (Nat × InnerBucketData)) (k : Nat) :
    innerFlat (ensureInner ibs k) = innerFlat ibs := by
  induction ibs with
  | nil => simp [ensureInner, innerFlat]
  | cons hd rest ih =>
    obtain ⟨k0, ib⟩ := hd
    by_cases h : k0 = k
    · simp [ensureInner, if_pos h]
    · simp only [ensureInner, if_neg h, innerFlat, List.flatMap_cons]
      simp only [innerFlat] at ih
      rw [ih]

lemma outerKeys_outerPush (m : List (Nat × OuterBucketData)) (oid iid c e : Nat) :
    outerKeys (outerPush m oid iid c e) = outerKeys m := by
  induction m with
  | nil => rfl
  | cons hd rest ih =>
    obtain ⟨k0, ob⟩ := hd
    by_cases h : k0 = oid
    · simp [outerPush, if_pos h, outerKeys]
    · simp only [outerPush, if_neg h, outerKeys, List.map_cons]
      simp only [outerKeys] at ih
      rw [ih]

lemma outerKeys_ensureOuterInner (m : List (Nat × OuterBucketData)) (oid iid : Nat) :
    outerKeys (ensureOuterInner m oid iid) = outerKeys m := by
  induction m with
  | nil => rfl
  | cons hd rest ih =>
    obtain ⟨k0, ob⟩ := hd
    by_cases h : k0 = oid
    · simp [ensureOuterInner, if_pos h, outerKeys]
    · simp only [ensureOuterInner, if_neg h, outerKeys, List.map_cons]
      simp only [outerKeys] at ih
      rw [ih]

lemma count_outerPush (m : List (Nat × OuterBucketData)) (oid iid c e x : Nat)
    (hmem : oid ∈ outerKeys m) :
    (bucketsEdgeIndexes (outerPush m oid iid c e)).count x =
      (bucketsEdgeIndexes m).count x + (if e = x then 1 else 0) := by
  induction m with
  | nil => cases hmem
  | cons hd rest ih =>
    obtain ⟨k0, ob⟩ := hd
    by_cases h : k0 = oid
    · simp only [outerPush, if_pos h, bucketsEdgeIndexes, List.flatMap_cons,
        List.count_append]
      rw [count_innerFlat_innerPush]
      omega
    · simp only [outerPush, if_neg h, bucketsEdgeIndexes, List.flatMap_cons,
        List.count_append]
      have hmem2 : oid ∈ outerKeys rest := by
        rcases List.mem_cons.mp hmem with h2 | h2
        · exact absurd h2.symm h
        · exact h2
      simp only [bucketsEdgeIndexes] at ih
      rw [ih hmem2]
      omega

lemma bucketsEdgeIndexes_ensureOuterInner (m : List (Nat × OuterBucketData))
    (oid iid : Nat) :
    bucketsEdgeIndexes (ensureOuterInner m oid iid) = bucketsEdgeIndexes m := by
  induction m with
  | nil => rfl
  | cons hd rest ih =>
    obtain ⟨k0, ob⟩ := hd
    by_cases h : k0 = oid
    · simp only [ensureOuterInner, if_pos h, bucketsEdgeIndexes, List.flatMap_cons]
      rw [innerFlat_ensureInner]
    · simp only [ensureOuterInner, if_neg h, bucketsEdgeIndexes, List.flatMap_cons]
      simp only [bucketsEdgeIndexes] at ih
      rw [ih]

lemma edgeEntryFor_snd {g : GraphBlob} {locs : List Nat} {i e : Nat}
    {q : Nat × Nat} (h : edgeEntryFor g locs i e = some q) : q.2 = e := by
  unfold edgeEntryFor at h
  cases h1 : g.edges[e]? with
  | none => rw [h1] at h; cases h
  | some ed =>
    simp only [h1] at h
    cases h2 : locs[if ed.point_1_node_idx = i then ed.point_2_node_idx
        else ed.point_1_node_idx]? with
    | none => rw [h2] at h; cases h
    | some c =>
      rw [h2] at h
      injection h with h
      subst h
      rfl

lemma count_edge_fold (g : GraphBlob) (locs : List Nat) (i oKey iKey x : Nat) :
    ∀ (l : List Nat) (m : List (Nat × OuterBucketData)),
      (∀ e ∈ l, (edgeEntryFor g locs i e).isSome = true) →
      oKey ∈ outerKeys m →
      (bucketsEdgeIndexes (l.foldl
        (fun m e =>
          match edgeEntryFor g locs i e with
          | none => m
          | some q => outerPush m oKey iKey q.1 q.2) m)).count x =
      (bucketsEdgeIndexes m).count x + l.count x := by
  intro l
  induction l with
  | nil => intro m _ _; simp
  | cons e es ih =>
    intro m hval hkey
    simp only [List.foldl_cons]
    cases hq : edgeEntryFor g locs i e with
    | none =>
      have hsome := hval e (List.mem_cons_self _ _)
      rw [hq] at hsome
      cases hsome
    | some q =>
      simp only [hq]
      rw [ih _ (fun e2 he2 => hval e2 (List.mem_cons_of_mem _ he2))
        (by rw [outerKeys_outerPush]; exact hkey)]
      rw [count_outerPush _ _ _ _ _ _ hkey]
      rw [edgeEntryFor_snd hq]
      rw [List.count_cons]
      by_cases hex : e = x
      · simp [hex]
        omega
      · simp [hex, Ne.symm hex]

lemma outerKeys_foldPush (g : GraphBlob) (locs : List Nat) (i oKey iKey : Nat) :
    ∀ (l : List Nat) (m : List (Nat × OuterBucketData)),
      outerKeys (l.foldl
        (fun m e =>
          match edgeEntryFor g locs i e with
          | none => m
          | some q => outerPush m oKey iKey q.1 q.2) m) = outerKeys m := by
  intro l
  induction l with
  | nil => intro m; rfl
  | cons e es ih =>
    intro m
    simp only [List.foldl_cons]
    cases hq : edgeEntryFor g locs i e with
    | none =>
      simp only [hq]
      exact ih m
    | some q =>
      simp only [hq]
      rw [ih, outerKeys_outerPush]

lemma count_processNode (g : GraphBlob) (locs : List Nat) (outerL innerL x : Nat)
    (m : List (Nat × OuterBucketData)) (i : Nat)
    (hval : ∀ e ∈ nodesEdges g i, (edgeEntryFor g locs i e).isSome = true)
    (hkeys : ∀ c ∈ locs, parent_cell_id c outerL ∈ outerKeys m)
    (hguard : i < locs.length ∨ nodesEdges g i = []) :
    (bucketsEdgeIndexes (processNode g locs outerL innerL m i)).count x =
      (bucketsEdgeIndexes m).count x + (nodesEdges g i).count x := by
  unfold processNode
  cases hloc : locs[i]? with
  | none =>
    have hge : locs.length ≤ i := by
      by_contra hlt
      rw [List.getElem?_eq_some_iff.mpr ⟨Nat.lt_of_not_le hlt, rfl⟩] at hloc
      · cases hloc
    rcases hguard with hg | hg
    · omega
    · rw [hg]
      simp
  | some cellId =>
    have hcmem : cellId ∈ locs := List.getElem?_mem hloc
    cases hnode : g.nodes[i]? with
    | none =>
      have : nodesEdges g i = [] := by unfold nodesEdges; rw [hnode]
      rw [this]
      simp only [List.count_nil, Nat.add_zero]
      rw [bucketsEdgeIndexes_ensureOuterInner]
    | some node =>
      have hne : nodesEdges g i = node.edges := by unfold nodesEdges; rw [hnode]
      rw [count_edge_fold g locs i _ _ x node.edges _
        (by rw [← hne]; exact hval)
        (by rw [outerKeys_ensureOuterInner]; exact hkeys cellId hcmem)]
      rw [bucketsEdgeIndexes_ensureOuterInner, hne]

lemma outerKeys_processNode (g : GraphBlob) (locs : List Nat) (outerL innerL : Nat)
    (m : List (Nat × OuterBucketData)) (i : Nat) :
    outerKeys (processNode g locs outerL innerL m i) = outerKeys m := by
  unfold processNode
  cases hloc : locs[i]? with
  | none => rfl
  | some cellId =>
    cases hnode : g.nodes[i]? with
    | none => exact outerKeys_ensureOuterInner m _ _
    | some node =>
      rw [outerKeys_foldPush, outerKeys_ensureOuterInner]

lemma mem_collectOuters_step (outerL : Nat) :
    ∀ (l : List Nat) (acc : List Nat) (y : Nat), y ∈ acc →
      y ∈ l.foldl
        (fun acc c =>
          if parent_cell_id c outerL ∈ acc then acc else acc ++ [parent_cell_id c outerL])
        acc := by
  intro l
  induction l with
  | nil => intro acc y hy; exact hy
  | cons c cs ih =>
    intro acc y hy
    simp only [List.foldl_cons]
    apply ih
    by_cases h : parent_cell_id c outerL ∈ acc
    · rw [if_pos h]; exact hy
    · rw [if_neg h]; exact List.mem_append_left _ hy

lemma mem_collectOuters (locs : List Nat) (outerL : Nat) :
    ∀ c ∈ locs, parent_cell_id c outerL ∈ collectOuters locs outerL := by
  unfold collectOuters
  have main : ∀ (l : List Nat) (acc : List Nat) (c : Nat), c ∈ l →
      parent_cell_id c outerL ∈ l.foldl
        (fun acc c =>
          if parent_cell_id c outerL ∈ acc then acc else acc ++ [parent_cell_id c outerL])
        acc := by
    intro l
    induction l with
    | nil => intro acc c hc; cases hc
    | cons c0 cs ih =>
      intro acc c hc
      rcases List.mem_cons.mp hc with rfl | hc2
      · simp only [List.foldl_cons]
        apply mem_collectOuters_step
        by_cases h : parent_cell_id c outerL ∈ acc
        · rw [if_pos h]; exact h
        · rw [if_neg h]; exact List.mem_append_right _ (List.mem_singleton.mpr rfl)
      · simp only [List.foldl_cons]
        exact ih _ c hc2
  intro c hc
  exact main locs [] c hc

lemma outerKeys_initOuter (l : List Nat) : outerKeys (initOuter l) = l := by
  induction l with
  | nil => rfl
  | cons a as ih =>
    show a :: outerKeys (initOuter as) = a :: as
    rw [ih]

lemma bucketsEdgeIndexes_initOuter (l : List Nat) :
    bucketsEdgeIndexes (initOuter l) = [] := by
  induction l with
  | nil => rfl
  | cons o os ih =>
    simp only [initOuter, List.map_cons, bucketsEdgeIndexes, List.flatMap_cons]
    simp only [initOuter, bucketsEdgeIndexes] at ih
    rw [ih]
    rfl

lemma innerFlat_padFold (f : Nat → Nat) :
    ∀ (l : List Nat) (ibs : List (Nat × InnerBucketData)),
      innerFlat (l.foldl (fun ibs i => ensureInner ibs (f i)) ibs) = innerFlat ibs := by
  intro l
  induction l with
  | nil => intro ibs; rfl
  | cons a as ih =>
    intro ibs
    simp only [List.foldl_cons]
    rw [ih, innerFlat_ensureInner]

lemma bucketsEdgeIndexes_build (g : GraphBlob) (locs : List Nat) (outerL innerL : Nat) :
    bucketsEdgeIndexes (build_outer_buckets g locs outerL innerL) =
      bucketsEdgeIndexes (mainPass g locs outerL innerL) := by
  unfold build_outer_buckets
  generalize mainPass g locs outerL innerL = m
  induction m with
  | nil => rfl
  | cons hd rest ih =>
    obtain ⟨k0, ob⟩ := hd
    simp only [List.map_cons, bucketsEdgeIndexes, List.flatMap_cons]
    simp only [bucketsEdgeIndexes] at ih
    rw [ih]
    unfold padOuter
    rw [innerFlat_padFold]

lemma count_mainPass (g : GraphBlob) (locs : List Nat) (outerL innerL x : Nat)
    (hval : ∀ i < g.nodes.length, ∀ e ∈ nodesEdges g i,
      (edgeEntryFor g locs i e).isSome = true) :
    (bucketsEdgeIndexes (mainPass g locs outerL innerL)).count x =
      ((List.range locs.length).map (fun i => (nodesEdges g i).count x)).sum := by
  unfold mainPass
  have hvalAll : ∀ i, ∀ e ∈ nodesEdges g i, (edgeEntryFor g locs i e).isSome = true := by
    intro i e he
    rcases Nat.lt_or_ge i g.nodes.length with hlt | hge
    · exact hval i hlt e he
    · unfold nodesEdges at he
      rw [List.getElem?_eq_none hge] at he
      cases he
  have main : ∀ (idxs : List Nat) (m : List (Nat × OuterBucketData)),
      (∀ c ∈ locs, parent_cell_id c outerL ∈ outerKeys m) →
      (∀ i ∈ idxs, i < locs.length ∨ nodesEdges g i = []) →
      (bucketsEdgeIndexes (idxs.foldl (processNode g locs outerL innerL) m)).count x =
        (bucketsEdgeIndexes m).count x +
          (idxs.map (fun i => (nodesEdges g i).count x)).sum := by
    intro idxs
    induction idxs with
    | nil => intro m _ _; simp
    | cons i is ih =>
      intro m hkeys hguard
      simp only [List.foldl_cons]
      rw [ih _ (fun c hc => by
          rw [outerKeys_processNode]; exact hkeys c hc)
        (fun j hj => hguard j (List.mem_cons_of_mem _ hj))]
      rw [count_processNode g locs outerL innerL x m i (hvalAll i) hkeys
        (hguard i (List.mem_cons_self _ _))]
      simp only [List.map_cons, List.sum_cons]
      omega
  rw [main (List.range locs.length) _
    (by
      intro c hc
      rw [outerKeys_initOuter]
      exact mem_collectOuters locs outerL c hc)
    (by
      intro i hi
      exact Or.inl (List.mem_range.mp hi))]
  rw [bucketsEdgeIndexes_initOuter]
  simp

/-- C5 amended.  The snap index builder records one bucket entry per
OCCURRENCE of an edge in a node incident list, keyed by the parents of
that NODE location cell and storing the OPPOSITE endpoint location as the
representative cell: an edge with backwards travel allowed, listed under
both endpoints, therefore appears twice in the index (under two different
inner buckets or files when the endpoints fall in different cells), and a
one way edge once under its endpoint one.  The original claim, one entry
per edge keyed by a single representative cell of the edge itself, fails
(see the counterexample). -/
theorem C5_one_entry_per_incident_occurrence (g : GraphBlob) (locs : List Nat)
    (outerL innerL : Nat) (hlen : g.nodes.length ≤ locs.length)
    (hval : ∀ i < g.nodes.length, ∀ e ∈ nodesEdges g i,
      (edgeEntryFor g locs i e).isSome = true) :
    ∀ x, (bucketsEdgeIndexes (build_outer_buckets g locs outerL innerL)).count x =
      ((List.range g.nodes.length).map (fun i => (nodesEdges g i).count x)).sum := by
  intro x
  rw [bucketsEdgeIndexes_build, count_mainPass g locs outerL innerL x hval]
  obtain ⟨k, hk⟩ := Nat.exists_eq_add_of_le hlen
  rw [hk, List.range_add, List.map_append, List.sum_append, List.map_map]
  have h2 : ((List.range k).map ((fun i => (nodesEdges g i).count x) ∘
      (fun j => g.nodes.length + j))).sum = 0 := by
    apply List.sum_eq_zero
    intro y hy
    rcases List.mem_map.mp hy with ⟨j, _, rfl⟩
    show (nodesEdges g (g.nodes.length + j)).count x = 0
    have hnil : nodesEdges g (g.nodes.length + j) = [] := by
      unfold nodesEdges
      rw [List.getElem?_eq_none (by omega)]
    rw [hnil]
    rfl
  rw [h2, Nat.add_zero]

/-- Two node graph with a single bidirectional edge (costs_and_flags five,
bit zero set) listed in the incident lists of both endpoints. -/
def snapPairGraph : GraphBlob :=
  { edges := [⟨0, 1, 5⟩], nodes := [⟨[0], [⟨0, 0⟩]⟩, ⟨[0], [⟨0, 0⟩]⟩] }

/-- C5 counterexample.  For the two node bidirectional edge graph with
node locations in two different outer cells, the built snap index lists
edge zero TWICE, once under each endpoint, refuting the claim that every
edge appears in exactly one inner bucket of exactly one file. -/
theorem C5_counterexample_bidirectional_twice :
    (bucketsEdgeIndexes (build_outer_buckets snapPairGraph
      [4611686018427387904, 2305843009213693952] 4 5)).count 0 = 2 ∧ (2 : Nat) ≠ 1 := by
  decide

/-- C5 witness: the amended count theorem applied to the concrete two node
graph. -/
theorem C5_per_occurrence_witness :
    (bucketsEdgeIndexes (build_outer_buckets snapPairGraph
      [4611686018427387904, 2305843009213693952] 4 5)).count 0 =
      ((List.range snapPairGraph.nodes.length).map
        (fun i => (nodesEdges snapPairGraph i).count 0)).sum :=
  C5_one_entry_per_incident_occurrence snapPairGraph
    [4611686018427387904, 2305843009213693952] 4 5 (by decide) (by decide) 0

/-- Wrapping u64 subtraction, the release mode semantics of the Rust
subtractions in find_closest_edge (snap.rs). -/
def wsub64 (a b : Nat) : Nat :=
  (a + (18446744073709551616 - b % 18446744073709551616)) % 18446744073709551616

/-- Result of the nearest entry search of the snap service: a found pair
of edge index and selected cell, the none of an empty or missing bucket, a
panic from an out of range vector access or wrapped index, or fuel
exhaustion. -/
inductive SnapFindRes where
  | found : Nat → Nat → SnapFindRes
  | noneFound : SnapFindRes
  | panicked : SnapFindRes
  | fuelOut : SnapFindRes
  deriving Repr, DecidableEq

/-- The code after the binary search loop of find_closest_edge: clamp the
insertion point, read the two neighbor cells and pick the one whose
WRAPPING u64 difference from the target is smaller (the Rust code performs
u64 subtractions that wrap when the neighbor exceeds the target, then
applies abs_diff with zero, which is the identity). -/
def snapAfterLoop (ids idxs : List Nat) (target left0 : Nat) : SnapFindRes :=
  let left := if ids.length ≤ left0 then ids.length - 1 else left0
  let li := if 0 < left then left - 1 else 0
  match ids[li]?, ids[left]? with
  | some cl, some cr =>
    if wsub64 target cl < wsub64 target cr then
      match idxs[li]? with
      | some e => .found e cl
      | none => .panicked
    else
      match idxs[left]? with
      | some e => .found e cr
      | none => .panicked
  | _, _ => .panicked

/-- Binary search loop of find_closest_edge over the raw u64 cell id
values.  The step right becomes mid minus one is a wrapping usize
subtraction: at mid zero the bound wraps to the maximum usize, the loop
guard stays true and the following vector access panics, exactly as the
Rust code would. -/
def snapSearchLoop (ids idxs : List Nat) (target : Nat) :
    Nat → Nat → Nat → SnapFindRes
  | 0, _, _ => .fuelOut
  | fuel + 1, left, right =>
    if left ≤ right then
      let mid := left + (right - left) / 2
      match ids[mid]? with
      | none => .panicked
      | some midCell =>
        if midCell = target then
          match idxs[mid]? with
          | none => .panicked
          | some e => .found e midCell
        else if midCell < target then snapSearchLoop ids idxs target fuel (mid + 1) right
        else snapSearchLoop ids idxs target fuel left (wsub64 mid 1)
    else snapAfterLoop ids idxs target left

/-- The find_closest_edge of snap.rs: empty bucket gives none, a single
entry is returned directly, a target at or below the first entry returns
the first entry, a target at or above the last entry returns the last
entry, and otherwise the binary search runs over the raw cell id values
(which are stored in insertion order and need not be sorted). -/
def find_closest_edge (ids idxs : List Nat) (target fuel : Nat) : SnapFindRes :=
  if ids.length = 0 then .noneFound
  else if ids.length = 1 then
    match idxs[0]?, ids[0]? with
    | some e, some c => .found e c
    | _, _ => .panicked
  else
    match ids[0]? with
    | none => .panicked
    | some c0 =>
      if target ≤ c0 then
        match idxs[0]? with
        | some e => .found e c0
        | none => .panicked
      else
        match ids[ids.length - 1]? with
        | none => .panicked
        | some cr =>
          if cr ≤ target then
            match idxs[ids.length - 1]? with
            | some e => .found e cr
            | none => .panicked
          else snapSearchLoop ids idxs target fuel 0 (ids.length - 1)

lemma snapAfterLoop_mem {ids idxs : List Nat} {target left0 e c : Nat}
    (h : snapAfterLoop ids idxs target left0 = .found e c) :
    ∃ i : Nat, ids[i]? = some c ∧ idxs[i]? = some e := by
  unfold snapAfterLoop at h
  cases h1 : ids[if 0 < (if ids.length ≤ left0 then ids.length - 1 else left0) then
      (if ids.length ≤ left0 then ids.length - 1 else left0) - 1 else 0]? with
  | none =>
    simp only [h1] at h
    exact SnapFindRes.noConfusion h
  | some cl =>
    cases h2 : ids[if ids.length ≤ left0 then ids.length - 1 else left0]? with
    | none =>
      simp only [h1, h2] at h
      exact SnapFindRes.noConfusion h
    | some cr =>
      simp only [h1, h2] at h
      by_cases hcmp : wsub64 target cl < wsub64 target cr
      · rw [if_pos hcmp] at h
        cases h3 : idxs[if 0 < (if ids.length ≤ left0 then ids.length - 1 else left0) then
            (if ids.length ≤ left0 then ids.length - 1 else left0) - 1 else 0]? with
        | none =>
          simp only [h3] at h
          exact SnapFindRes.noConfusion h
        | some e2 =>
          simp only [h3] at h
          injection h with he hc
          subst he; subst hc
          exact ⟨_, h1, h3⟩
      · rw [if_neg hcmp] at h
        cases h3 : idxs[if ids.length ≤ left0 then ids.length - 1 else left0]? with
        | none =>
          simp only [h3] at h
          exact SnapFindRes.noConfusion h
        | some e2 =>
          simp only [h3] at h
          injection h with he hc
          subst he; subst hc
          exact ⟨_, h2, h3⟩

lemma snapSearchLoop_mem {ids idxs : List Nat} {target : Nat} :
    ∀ {fuel left right e c : Nat},
      snapSearchLoop ids idxs target fuel left right = .found e c →
      ∃ i : Nat, ids[i]? = some c ∧ idxs[i]? = some e := by
  intro fuel
  induction fuel with
  | zero => intro left right e c h; cases h
  | succ fuel ih =>
    intro left right e c h
    rw [snapSearchLoop] at h
    by_cases hle : left ≤ right
    · rw [if_pos hle] at h
      cases h1 : ids[left + (right - left) / 2]? with
      | none =>
        simp only [h1] at h
        exact SnapFindRes.noConfusion h
      | some midCell =>
        simp only [h1] at h
        by_cases heq : midCell = target
        · rw [if_pos heq] at h
          cases h2 : idxs[left + (right - left) / 2]? with
          | none =>
            simp only [h2] at h
            exact SnapFindRes.noConfusion h
          | some e2 =>
            simp only [h2] at h
            injection h with he hc
            subst he; subst hc
            exact ⟨_, h1, h2⟩
        · rw [if_neg heq] at h
          by_cases hlt : midCell < target
          · rw [if_pos hlt] at h
            exact ih h
          · rw [if_neg hlt] at h
            exact ih h
    · rw [if_neg hle] at h
      exact snapAfterLoop_mem h

lemma find_closest_edge_mem {ids idxs : List Nat} {target fuel e c : Nat}
    (h : find_closest_edge ids idxs target fuel = .found e c) :
    ∃ i : Nat, ids[i]? = some c ∧ idxs[i]? = some e := by
  unfold find_closest_edge at h
  by_cases h0 : ids.length = 0
  · rw [if_pos h0] at h
    cases h
  · rw [if_neg h0] at h
    by_cases h1 : ids.length = 1
    · rw [if_pos h1] at h
      cases ha : idxs[0]? with
      | none =>
        simp only [ha] at h
        exact SnapFindRes.noConfusion h
      | some e2 =>
        cases hb : ids[0]? with
        | none =>
          simp only [ha, hb] at h
          exact SnapFindRes.noConfusion h
        | some c2 =>
          simp only [ha, hb] at h
          injection h with he hc
          subst he; subst hc
          exact ⟨0, hb, ha⟩
    · rw [if_neg h1] at h
      cases hb : ids[0]? with
      | none =>
        simp only [hb] at h
        exact SnapFindRes.noConfusion h
      | some c0 =>
        simp only [hb] at h
        by_cases h2 : target ≤ c0
        · rw [if_pos h2] at h
          cases ha : idxs[0]? with
          | none =>
            simp only [ha] at h
            exact SnapFindRes.noConfusion h
          | some e2 =>
            simp only [ha] at h
            injection h with he hc
            subst he; subst hc
            exact ⟨0, hb, ha⟩
        · rw [if_neg h2] at h
          cases hcr : ids[ids.length - 1]? with
          | none =>
            simp only [hcr] at h
            exact SnapFindRes.noConfusion h
          | some cr =>
            simp only [hcr] at h
            by_cases h3 : cr ≤ target
            · rw [if_pos h3] at h
              cases ha : idxs[ids.length - 1]? with
              | none =>
                simp only [ha] at h
                exact SnapFindRes.noConfusion h
              | some e2 =>
                simp only [ha] at h
                injection h with he hc
                subst he; subst hc
                exact ⟨_, hcr, ha⟩
            · rw [if_neg h3] at h
              exact snapSearchLoop_mem h

/-- Snap point of a response: either the center of a named cell (the
float center computation itself is pure spherical geometry on the cell id
and is kept symbolic) or the echoed original request coordinate. -/
inductive SnapPoint where
  | cellCenter : Nat → SnapPoint
  | original : SnapPoint
  deriving Repr, DecidableEq

/-- One inner snap bucket as the snap service reads it. -/
structure SnapBucketM where
  cell_id : Nat
  edge_cell_ids : List Nat
  edge_indexes : List Nat
  deriving Repr, DecidableEq

/-- Snap response: the chosen edge index and the returned coordinate. -/
structure SnapResponseM where
  edge_index : Nat
  point : SnapPoint
  deriving Repr, DecidableEq

/-- The get_snap handler of snap.rs: look up the outer file by the outer
parent of the query cell, scan its buckets for the first one whose cell id
equals the inner parent, run find_closest_edge on the raw query cell id,
and answer with the selected edge index and the center of the selected
cell; any miss falls through to the unsnapped response echoing the input
(edge index zero).  A panic inside the search is the none outcome. -/
def get_snap (files : List (Nat × List SnapBucketM)) (outerL innerL : Nat)
    (q : Nat) (fuel : Nat) : Option SnapResponseM :=
  match alookup files (parent_cell_id q outerL) with
  | none => some ⟨0, .original⟩
  | some buckets =>
    match buckets.find? (fun b => b.cell_id == parent_cell_id q innerL) with
    | none => some ⟨0, .original⟩
    | some b =>
      match find_closest_edge b.edge_cell_ids b.edge_indexes q fuel with
      | .found e c => some ⟨e, .cellCenter c⟩
      | .noneFound => some ⟨0, .original⟩
      | .panicked => none
      | .fuelOut => none

/-- C6 amended.  A successful snap that returns a cell center returns the
edge index and cell of ONE entry of the located bucket, selected by a
binary search over the raw u64 cell id values: the selected pair is some
position i of the two parallel bucket vectors, and the returned coordinate
is the center of exactly that entry cell.  The selection does NOT minimize
the angular distance to the query (see the counterexample): the bucket
vectors are filled in insertion order and the binary search is only a
nearest by cell id search on sorted data. -/
theorem C6_snap_returns_bucket_entry_center (files : List (Nat × List SnapBucketM))
    (outerL innerL q fuel e c : Nat)
    (h : get_snap files outerL innerL q fuel = some ⟨e, SnapPoint.cellCenter c⟩) :
    ∃ (bs : List SnapBucketM) (b : SnapBucketM) (i : Nat), alookup files (parent_cell_id q outerL) = some bs ∧
      bs.find? (fun x => x.cell_id == parent_cell_id q innerL) = some b ∧
      b.edge_cell_ids[i]? = some c ∧ b.edge_indexes[i]? = some e := by
  unfold get_snap at h
  cases h1 : alookup files (parent_cell_id q outerL) with
  | none =>
    simp only [h1] at h
    simp at h
  | some bs =>
    simp only [h1] at h
    cases h2 : bs.find? (fun b => b.cell_id == parent_cell_id q innerL) with
    | none =>
      simp only [h2] at h
      simp at h
    | some b =>
      simp only [h2] at h
      cases h3 : find_closest_edge b.edge_cell_ids b.edge_indexes q fuel with
      | found e2 c2 =>
        simp only [h3] at h
        injection h with h
        injection h with he hc
        injection hc with hc
        subst he; subst hc
        obtain ⟨i, hi1, hi2⟩ := find_closest_edge_mem h3
        exact ⟨bs, b, i, rfl, h2, hi1, hi2⟩
      | noneFound =>
        simp only [h3] at h
        simp at h
      | panicked =>
        simp only [h3] at h
        exact Option.noConfusion h
      | fuelOut =>
        simp only [h3] at h
        exact Option.noConfusion h

/-- Concrete snap bucket whose parallel vectors hold cells ten, five and
one hundred with edge indices seven, eight and nine. -/
def c6Bucket : SnapBucketM := ⟨parent_cell_id 5 8, [10, 5, 100], [7, 8, 9]⟩

/-- C6 counterexample.  Querying exactly cell five, which is PRESENT in
the bucket at position one with edge index eight and angular distance
zero, the service returns edge SEVEN with the center of cell TEN, because
the binary search bails out at the guard for a target at or below the
first (unsorted) entry.  The returned entry does not minimize the angular
distance to the query: the distance of a cell to itself is zero while
distinct finest level cells have distinct centers and positive distance,
refuting the claimed selection rule. -/
theorem C6_counterexample_not_angular_min :
    get_snap [(parent_cell_id 5 4, [c6Bucket])] 4 8 5 100 =
      some ⟨7, SnapPoint.cellCenter 10⟩ ∧
    c6Bucket.edge_cell_ids[1]? = some 5 ∧
    c6Bucket.edge_indexes[1]? = some 8 ∧ (10 : Nat) ≠ 5 := by decide

/-- C6 witness: the amended theorem applied to the concrete bucket. -/
theorem C6_bucket_entry_witness :
    ∃ (bs : List SnapBucketM) (b : SnapBucketM) (i : Nat), alookup [(parent_cell_id 5 4, [c6Bucket])] (parent_cell_id 5 4) = some bs ∧
      bs.find? (fun x => x.cell_id == parent_cell_id 5 8) = some b ∧
      b.edge_cell_ids[i]? = some (10 : Nat) ∧ b.edge_indexes[i]? = some (7 : Nat) :=
  C6_snap_returns_bucket_entry_center [(parent_cell_id 5 4, [c6Bucket])] 4 8 5 100 7 10
    (by decide)

end TobMap
